import Mathlib

/-!
# Conway's Game of Life on a wrap-around grid (`src/main.cpp`)

A shallow embedding of the simulation part of `main`: the `cells` array, the
start-up writes, the event switch, the neighbour loop, the rule branches and
the commit loop.  Rendering (shapes, colours, drawing, sleeping) carries no
state that the simulation reads and is left out.

Conventions.

* C `int` values are `Int`; `/` and `%` of C are `Int.tdiv` and `Int.tmod`.
  The grid dimensions are `w` (`numCellsInRow`) and `h` (`numCellsInColumn`);
  the program fixes them to `1500/20` and `800/20`, the functions below take
  them as parameters.  The only sums the loops form are `i + x + w` and
  `j + y + h` with `0 ≤ i < w`, `0 ≤ j < h` and `x`, `y` in `{-1, 0, 1}`; they
  stay below `2 * w` and `2 * h`, so no `int` overflows for dimensions of any
  array that can exist, and the arithmetic is not reduced modulo `2 ^ 32`.
* `Cell cells[numCellsInRow][numCellsInColumn]` is one contiguous block of
  `w * h` cells, and `cells[a][b]` designates element `a * h + b` of that
  block.  `Cells` maps such an element number to its cell.  The loops only
  ever form numbers of in-range coordinates.  The two places where the
  indices come from outside the loops (the start-up writes and the mouse
  click) return `none` when the element lies outside the block: the C program
  has no defined behaviour there and the model assigns none.
-/

namespace GameOfLife

/-- The two simulation fields of `struct Cell`. -/
structure Cell where
  status : Int
  next_status : Int
deriving DecidableEq

def MAX_X : Int := 1500

def MAX_Y : Int := 800

def BLOCK_WIDTH : Int := 20

def BLOCK_HEIGHT : Int := 20

/-- Line 37: `int numCellsInRow = MAX_X / BLOCK_WIDTH;`. -/
def numCellsInRow : Int := Int.tdiv MAX_X BLOCK_WIDTH

/-- Line 38: `int numCellsInColumn = MAX_Y / BLOCK_HEIGHT;`. -/
def numCellsInColumn : Int := Int.tdiv MAX_Y BLOCK_HEIGHT

/-- Contents of the storage of `cells`, by element number. -/
abbrev Cells := Int → Cell

/-- Element number of `cells[x][y]` when the second dimension is `h`. -/
def offset (h x y : Int) : Int := x * h + y

/-- Element numbers that lie inside `Cell cells[w][h]`. -/
def inArray (w h k : Int) : Prop := 0 ≤ k ∧ k < w * h

instance (w h k : Int) : Decidable (inArray w h k) :=
  inferInstanceAs (Decidable (0 ≤ k ∧ k < w * h))

/-- Store `v` into the `status` field of element `k`. -/
def setStatus (cells : Cells) (k v : Int) : Cells :=
  fun m => if m = k then { cells m with status := v } else cells m

/-- Store `v` into the `next_status` field of element `k`. -/
def setNextStatus (cells : Cells) (k v : Int) : Cells :=
  fun m => if m = k then { cells m with next_status := v } else cells m

/-- Values of the counter of `for (int k = 0; k < n; k++)`. -/
def loopRange (n : Int) : List Int := (List.range n.toNat).map Int.ofNat

/-- Values of the counter of `for (int y = -1; y < 2; y++)`. -/
def neighborSteps : List Int := [-1, 0, 1]

/-! ## Start-up (lines 46-74) -/

/-- Lines 57-58: `status = 0; next_status = 0;` for element `k`. -/
def clearCell (cells : Cells) (k : Int) : Cells :=
  fun m => if m = k then { status := 0, next_status := 0 } else cells m

/-- Lines 46-60: the initialisation loop, `j` outside and `i` inside. -/
def initLoop (w h : Int) (cells : Cells) : Cells :=
  (loopRange h).foldl (fun c j =>
    (loopRange w).foldl (fun c i => clearCell c (offset h i j)) c) cells

/-- The statement `cells[x][y].status = v;` with indices that no loop bounds.
The source makes no test here: the `none` branch is not a check of the
program, it stands for a write outside the storage of the array, to which C
gives no meaning. -/
def writeStatus (w h : Int) (cells : Cells) (x y v : Int) : Option Cells :=
  if inArray w h (offset h x y) then some (setStatus cells (offset h x y) v) else none

/-- Lines 64-68 and 71-74: the index pairs of the start-up writes, in order. -/
def initialAlive : List (Int × Int) :=
  [(13, 12), (11, 13), (13, 13), (12, 14), (13, 14),
   (52, 53), (52, 54), (53, 53), (53, 54)]

/-- Run `cells[x][y].status = 1;` for each listed pair. -/
def markAlive (w h : Int) : Cells → List (Int × Int) → Option Cells
  | cells, [] => some cells
  | cells, p :: ps =>
    match writeStatus w h cells p.1 p.2 1 with
    | none => none
    | some cells' => markAlive w h cells' ps

/-- Lines 44-74 of `main`: the array starts with arbitrary contents `mem`. -/
def startup (mem : Cells) : Option Cells :=
  markAlive numCellsInRow numCellsInColumn
    (initLoop numCellsInRow numCellsInColumn mem) initialAlive

/-! ## Events (lines 78-103) -/

/-- Part of `sf::Event` that the switch looks at. -/
inductive Event where
  | closed
  | keyPressed (isSpace : Bool)
  | mouseButtonPressed (x y : Int)
  | other
deriving DecidableEq

/-- State of the main loop that the simulation reads or writes. -/
structure State where
  cells : Cells
  paused : Bool
  windowOpen : Bool

/-- Lines 94-98: flip the status of `cells[cellClickedX][cellClickedY]`.  The
source indexes the array without any test of the click coordinates: the `none`
branch is not a check of the program, it stands for an access outside the
storage of the array, to which C gives no meaning. -/
def toggleCell (w h : Int) (cells : Cells) (cellClickedX cellClickedY : Int) :
    Option Cells :=
  if inArray w h (offset h cellClickedX cellClickedY) then
    some (if (cells (offset h cellClickedX cellClickedY)).status = 0
      then setStatus cells (offset h cellClickedX cellClickedY) 1
      else setStatus cells (offset h cellClickedX cellClickedY) 0)
  else none

/-- Lines 80-102: one pass through the `switch (event.type)`. -/
def handleEvent (w h : Int) (s : State) : Event → Option State
  | Event.closed => some { s with windowOpen := false }
  | Event.keyPressed isSpace =>
    some (if isSpace then { s with paused := !s.paused } else s)
  | Event.mouseButtonPressed x y =>
    match toggleCell w h s.cells (Int.tdiv x BLOCK_WIDTH) (Int.tdiv y BLOCK_HEIGHT) with
    | none => none
    | some cells' => some { s with cells := cells' }
  | Event.other => some s

/-- Line 78: the `pollEvent` loop over the events queued for this tick. -/
def pollEvents (w h : Int) : State → List Event → Option State
  | s, [] => some s
  | s, e :: es =>
    match handleEvent w h s e with
    | none => none
    | some s' => pollEvents w h s' es

/-! ## One generation (lines 105-142) -/

/-- Lines 109-118: the neighbour loop for cell `(i, j)`. -/
def countNeighbors (w h : Int) (cells : Cells) (i j : Int) : Int :=
  neighborSteps.foldl (fun n y =>
    neighborSteps.foldl (fun n x =>
      if ¬(x = 0 ∧ y = 0) ∧
          (cells (offset h (Int.tmod (i + x + w) w) (Int.tmod (j + y + h) h))).status = 1
      then n + 1 else n) n) 0

/-- Lines 120-128: the four rule branches for element `k`; there is no final
`else`, so a cell matched by no branch keeps its `next_status`. -/
def applyRules (cells : Cells) (k numLiveNeighbors : Int) : Cells :=
  if (cells k).status = 1 ∧ numLiveNeighbors < 2 then setNextStatus cells k 0
  else if (cells k).status = 1 ∧ (numLiveNeighbors = 2 ∨ numLiveNeighbors = 3) then
    setNextStatus cells k 1
  else if (cells k).status = 1 ∧ numLiveNeighbors > 3 then setNextStatus cells k 0
  else if (cells k).status = 0 ∧ numLiveNeighbors = 3 then setNextStatus cells k 1
  else cells

/-- Lines 106-131: the compute loops, `j` outside and `i` inside. -/
def computePass (w h : Int) (cells : Cells) : Cells :=
  (loopRange h).foldl (fun c j =>
    (loopRange w).foldl (fun c i =>
      applyRules c (offset h i j) (countNeighbors w h c i j)) c) cells

/-- Lines 139-142: the guarded commit of element `k`. -/
def commitCell (paused : Bool) (cells : Cells) (k : Int) : Cells :=
  if !paused then
    fun m => if m = k then { status := (cells k).next_status, next_status := 0 } else cells m
  else cells

/-- Lines 137-150: the commit loops (the drawing calls are left out). -/
def commitPass (w h : Int) (paused : Bool) (cells : Cells) : Cells :=
  (loopRange h).foldl (fun c j =>
    (loopRange w).foldl (fun c i => commitCell paused c (offset h i j)) c) cells

/-- Lines 76-154: one iteration of `while (window.isOpen())` with the events
queued for it. -/
def tick (w h : Int) (s : State) (events : List Event) : Option State :=
  match pollEvents w h s events with
  | none => none
  | some s1 =>
    some { s1 with
      cells := commitPass w h s1.paused
        (if !s1.paused then computePass w h s1.cells else s1.cells) }

/-- The `while (window.isOpen())` loop, run on a schedule that lists the
events queued for each iteration. -/
def mainLoop (w h : Int) : State → List (List Event) → Option State
  | s, [] => some s
  | s, events :: rest =>
    if s.windowOpen then
      match tick w h s events with
      | none => none
      | some s' => mainLoop w h s' rest
    else some s

/-! ## Descriptions used to state the results -/

/-- Value of `next_status` after the rule branches of lines 120-128, for a cell
with the given `status`, neighbour count and earlier `next_status`. -/
def nextValue (status numLiveNeighbors next_status : Int) : Int :=
  if status = 1 ∧ numLiveNeighbors < 2 then 0
  else if status = 1 ∧ (numLiveNeighbors = 2 ∨ numLiveNeighbors = 3) then 1
  else if status = 1 ∧ numLiveNeighbors > 3 then 0
  else if status = 0 ∧ numLiveNeighbors = 3 then 1
  else next_status

/-- Coordinates `(i, j)` of a cell of the `w` by `h` grid. -/
def inGrid (w h i j : Int) : Prop := 0 ≤ i ∧ i < w ∧ 0 ≤ j ∧ j < h

instance (w h i j : Int) : Decidable (inGrid w h i j) :=
  inferInstanceAs (Decidable (0 ≤ i ∧ i < w ∧ 0 ≤ j ∧ j < h))

/-- Column (or row) one step down from `i` on a ring of `n` positions. -/
def wrapDec (n i : Int) : Int := if i = 0 then n - 1 else i - 1

/-- Column (or row) one step up from `i` on a ring of `n` positions. -/
def wrapInc (n i : Int) : Int := if i + 1 = n then 0 else i + 1

/-- One when `cells[i][j].status == 1`, zero otherwise. -/
def live (h : Int) (cells : Cells) (i j : Int) : Int :=
  if (cells (offset h i j)).status = 1 then 1 else 0

/-- The offsets `{-1,0,1}² \ {(0,0)}` of the Moore neighbourhood. -/
def neighborOffsets : List (Int × Int) :=
  (List.product neighborSteps neighborSteps).filter (fun d => decide (d ≠ (0, 0)))

/-- Written from the specification, not from the loop: the number of offsets
`(dx, dy)` of the Moore neighbourhood whose cell, at coordinates reduced with
the non-negative mathematical modulo, has status 1. -/
def bruteForceCount (w h : Int) (cells : Cells) (i j : Int) : Nat :=
  (neighborOffsets.filter (fun d =>
    decide ((cells (offset h ((i + d.1) % w) ((j + d.2) % h))).status = 1))).length

/-- Every grid cell has a cleared `next_status` and a status of 0 or 1. -/
def wellFormed (w h : Int) (cells : Cells) : Prop :=
  ∀ i j, inGrid w h i j →
    (cells (offset h i j)).next_status = 0 ∧
    ((cells (offset h i j)).status = 0 ∨ (cells (offset h i j)).status = 1)

/-- The event is a mouse click whose cell coordinates fall outside the grid. -/
def clickOutside (w h : Int) : Event → Prop
  | Event.mouseButtonPressed x y =>
    ¬ inGrid w h (Int.tdiv x BLOCK_WIDTH) (Int.tdiv y BLOCK_HEIGHT)
  | _ => False

/-- The event is a mouse click. -/
def isClick : Event → Bool
  | Event.mouseButtonPressed _ _ => true
  | _ => false

/-- Grid coordinates of the cells that hold status 1 once `startup` is done:
the five glider cells, and the four cells that the writes of lines 71-74
reach in the storage of a 75 by 40 array. -/
def startupLive : List (Int × Int) :=
  [(13, 12), (11, 13), (13, 13), (12, 14), (13, 14),
   (53, 13), (53, 14), (54, 13), (54, 14)]

/-! ## Patterns -/

/-- One when `(i, j)` is listed in `L`, zero otherwise. -/
def mark (L : List (Int × Int)) (i j : Int) : Int := if (i, j) ∈ L then 1 else 0

/-- The grid cells hold exactly the pattern `L`: status 1 on the listed
coordinates, status 0 elsewhere, and `next_status` 0 everywhere. -/
def shows (w h : Int) (cells : Cells) (L : List (Int × Int)) : Prop :=
  ∀ i j, inGrid w h i j →
    cells (offset h i j) = { status := mark L i j, next_status := 0 }

/-- Contents in which the listed grid coordinates are alive and all else is
dead, with every `next_status` cleared. -/
def gridOf (h : Int) (L : List (Int × Int)) : Cells :=
  fun k => { status := if k ∈ L.map (fun p => offset h p.1 p.2) then 1 else 0,
             next_status := 0 }

/-- Live neighbours of `(i, j)` in pattern `L` on the unbounded plane. -/
def planeCount (L : List (Int × Int)) (i j : Int) : Int :=
  mark L (i - 1) (j - 1) + mark L i (j - 1) + mark L (i + 1) (j - 1)
    + mark L (i - 1) j + mark L (i + 1) j
    + mark L (i - 1) (j + 1) + mark L i (j + 1) + mark L (i + 1) (j + 1)

/-- Status of `(i, j)` one generation after pattern `L` on the unbounded plane. -/
def planeNext (L : List (Int × Int)) (i j : Int) : Int :=
  nextValue (mark L i j) (planeCount L i j) 0

/-- The glider of lines 64-68. -/
def gliderStart : List (Int × Int) := [(13, 12), (11, 13), (13, 13), (12, 14), (13, 14)]

/-- The glider after one, two and three generations. -/
def glider1 : List (Int × Int) := [(12, 12), (12, 14), (13, 13), (13, 14), (14, 13)]

def glider2 : List (Int × Int) := [(12, 14), (13, 12), (13, 14), (14, 13), (14, 14)]

def glider3 : List (Int × Int) := [(12, 13), (13, 14), (13, 15), (14, 13), (14, 14)]

/-- The glider shifted by `(+1, +1)`. -/
def gliderEnd : List (Int × Int) := gliderStart.map (fun p => (p.1 + 1, p.2 + 1))

/-- A horizontal row of three cells centred at `(x, y)`, coordinates taken
modulo the dimensions. -/
def blinkerRow (w x y : Int) : List (Int × Int) := [((x - 1) % w, y), (x, y), ((x + 1) % w, y)]

/-- A vertical column of three cells centred at `(x, y)`, coordinates taken
modulo the dimensions. -/
def blinkerColumn (h x y : Int) : List (Int × Int) := [(x, (y - 1) % h), (x, y), (x, (y + 1) % h)]

/-- The 2 by 2 block with corner `(x, y)`. -/
def block (x y : Int) : List (Int × Int) := [(x, y), (x + 1, y), (x, y + 1), (x + 1, y + 1)]

/-! ## Loop ranges and element numbers -/

theorem mem_loopRange (n k : Int) : k ∈ loopRange n ↔ 0 ≤ k ∧ k < n := by
  unfold loopRange
  constructor
  · intro hk
    rcases List.mem_map.1 hk with ⟨m, hm, rfl⟩
    have := List.mem_range.1 hm
    constructor
    · exact Int.ofNat_nonneg m
    · have h2 : (m : Int) < (n.toNat : Int) := by exact_mod_cast this
      have h3 : (Int.ofNat m) = (m : Int) := rfl
      omega
  · rintro ⟨h0, h1⟩
    refine List.mem_map.2 ⟨k.toNat, List.mem_range.2 ?_, ?_⟩
    · omega
    · show ((k.toNat : Nat) : Int) = k
      omega

theorem nodup_loopRange (n : Int) : (loopRange n).Nodup := by
  unfold loopRange
  exact (List.nodup_range _).map (fun a b hab => Int.ofNat.inj hab)

theorem offset_inj (h x y x' y' : Int) (hy : 0 ≤ y ∧ y < h) (hy' : 0 ≤ y' ∧ y' < h)
    (e : offset h x y = offset h x' y') : x = x' ∧ y = y' := by
  unfold offset at e
  have hpos : (0 : Int) < h := by omega
  have m1 : (x * h + y) % h = y := by
    rw [add_comm, Int.add_mul_emod_self]; exact Int.emod_eq_of_lt hy.1 hy.2
  have m2 : (x' * h + y') % h = y' := by
    rw [add_comm, Int.add_mul_emod_self]; exact Int.emod_eq_of_lt hy'.1 hy'.2
  have hyy : y = y' := by rw [← m1, ← m2, e]
  subst hyy
  have hx : x * h = x' * h := by omega
  exact ⟨Int.eq_of_mul_eq_mul_right (by omega) hx, rfl⟩

theorem inArray_offset (w h i j : Int) (hi : 0 ≤ i ∧ i < w) (hj : 0 ≤ j ∧ j < h) :
    inArray w h (offset h i j) := by
  unfold inArray offset
  have h1 : 0 ≤ i * h := Int.mul_nonneg hi.1 (by omega)
  have h2 : (i + 1) * h ≤ w * h := Int.mul_le_mul_of_nonneg_right (by omega) (by omega)
  have h3 : (i + 1) * h = i * h + h := by ring
  constructor <;> omega

/-! ## Loops as folds over the visited index pairs -/

theorem foldl_nested {σ α β : Type} (f : σ → α → β → σ) (l₁ : List α) (l₂ : List β) (c : σ) :
    l₁.foldl (fun c a => l₂.foldl (fun c b => f c a b) c) c
      = (List.product l₁ l₂).foldl (fun c p => f c p.1 p.2) c := by
  induction l₁ generalizing c with
  | nil => rfl
  | cons a l ih =>
    have hp : List.product (a :: l) l₂ = List.map (fun b => (a, b)) l₂ ++ List.product l l₂ :=
      List.product_cons a l l₂
    rw [hp, List.foldl_append, List.foldl_cons, ih, List.foldl_map]

theorem foldl_fixed_id {σ α : Type} (f : σ → α → σ) (hf : ∀ c a, f c a = c) (l : List α)
    (c : σ) : l.foldl f c = c := by
  induction l generalizing c with
  | nil => rfl
  | cons a l ih => rw [List.foldl_cons, hf, ih]

/-- A loop whose body rewrites only the element of the visited index: each
visited element ends up with the value the body computes from the contents
before the loop, provided that value only depends on that element and on a
part `S` of the contents that the body never changes. -/
theorem foldl_update_spec {α σ : Type} (off : α → Int) (body : Cells → α → Cells)
    (G : Cells → α → Cell) (S : Cells → σ)
    (hframe : ∀ c p k, k ≠ off p → body c p k = c k)
    (hat : ∀ c p, body c p (off p) = G c p)
    (hS : ∀ c p, S (body c p) = S c)
    (hG : ∀ c c' p, c' (off p) = c (off p) → S c' = S c → G c' p = G c p)
    (c : Cells) (ps : List α) (hnd : ps.Nodup)
    (hinj : ∀ p ∈ ps, ∀ q ∈ ps, off p = off q → p = q) :
    (∀ p ∈ ps, (ps.foldl body c) (off p) = G c p) ∧
    (∀ k, (∀ p ∈ ps, off p ≠ k) → (ps.foldl body c) k = c k) ∧
    S (ps.foldl body c) = S c := by
  induction ps using List.reverseRecOn with
  | nil => exact ⟨by simp, by simp, rfl⟩
  | append_singleton ps q ih =>
    have hnd' : ps.Nodup ∧ q ∉ ps := by
      have := List.nodup_append.1 hnd
      refine ⟨this.1, fun hq => ?_⟩
      exact this.2.2 hq (List.mem_singleton_self q)
    have hinj' : ∀ p ∈ ps, ∀ r ∈ ps, off p = off r → p = r := fun p hp r hr e =>
      hinj p (List.mem_append_left _ hp) r (List.mem_append_left _ hr) e
    obtain ⟨ih1, ih2, ih3⟩ := ih hnd'.1 hinj'
    have hq : ∀ p ∈ ps, off p ≠ off q := fun p hp e => by
      have := hinj p (List.mem_append_left _ hp) q
        (List.mem_append_right _ (List.mem_singleton_self q)) e
      exact hnd'.2 (this ▸ hp)
    rw [List.foldl_append, List.foldl_cons, List.foldl_nil]
    refine ⟨?_, ?_, ?_⟩
    · intro p hp
      rcases List.mem_append.1 hp with hp | hp
      · rw [hframe _ _ _ (hq p hp), ih1 p hp]
      · rw [List.mem_singleton.1 hp, hat]
        exact hG _ _ _ (ih2 _ hq) ih3
    · intro k hk
      rw [hframe _ _ _ (fun e => hk q (List.mem_append_right _ (List.mem_singleton_self q)) e.symm)]
      exact ih2 k (fun p hp => hk p (List.mem_append_left _ hp))
    · rw [hS, ih3]

/-! ## The compute and commit passes, cell by cell -/

theorem applyRules_apply (c : Cells) (k n m : Int) :
    applyRules c k n m =
      if m = k then
        { status := (c k).status,
          next_status := nextValue (c k).status n (c k).next_status }
      else c m := by
  unfold applyRules nextValue setNextStatus
  by_cases hm : m = k
  · subst hm
    split_ifs <;> simp_all
  · split_ifs <;> simp_all

theorem countNeighbors_congr (w h : Int) (c c' : Cells) (i j : Int)
    (hs : (fun k => (c' k).status) = fun k => (c k).status) :
    countNeighbors w h c' i j = countNeighbors w h c i j := by
  have e : ∀ k, (c' k).status = (c k).status := fun k => congrFun hs k
  unfold countNeighbors
  simp only [e]

theorem pairs_nodup (w h : Int) : (List.product (loopRange h) (loopRange w)).Nodup :=
  List.Nodup.product (nodup_loopRange h) (nodup_loopRange w)

theorem mem_pairs (w h : Int) (p : Int × Int) :
    p ∈ List.product (loopRange h) (loopRange w) ↔ inGrid w h p.2 p.1 := by
  obtain ⟨j, i⟩ := p
  rw [List.pair_mem_product, mem_loopRange, mem_loopRange]
  unfold inGrid
  tauto

theorem pairs_inj (w h : Int) :
    ∀ p ∈ List.product (loopRange h) (loopRange w),
    ∀ q ∈ List.product (loopRange h) (loopRange w),
      offset h p.2 p.1 = offset h q.2 q.1 → p = q := by
  intro p hp q hq e
  rw [mem_pairs] at hp hq
  unfold inGrid at hp hq
  obtain ⟨e1, e2⟩ := offset_inj h p.2 p.1 q.2 q.1 ⟨hp.2.2.1, hp.2.2.2⟩ ⟨hq.2.2.1, hq.2.2.2⟩ e
  exact Prod.ext e2 e1

/-- The compute pass leaves every `status` alone and gives each grid cell the
`next_status` that the rules derive from the contents before the pass. -/
theorem computePass_spec (w h : Int) (c : Cells) :
    (∀ i j, inGrid w h i j →
      computePass w h c (offset h i j) =
        { status := (c (offset h i j)).status,
          next_status := nextValue (c (offset h i j)).status (countNeighbors w h c i j)
            (c (offset h i j)).next_status }) ∧
    (∀ k, (∀ i j, inGrid w h i j → offset h i j ≠ k) → computePass w h c k = c k) ∧
    (∀ k, (computePass w h c k).status = (c k).status) := by
  have hfold : computePass w h c =
      (List.product (loopRange h) (loopRange w)).foldl
        (fun c p => applyRules c (offset h p.2 p.1) (countNeighbors w h c p.2 p.1)) c :=
    foldl_nested (fun c j i => applyRules c (offset h i j) (countNeighbors w h c i j))
      (loopRange h) (loopRange w) c
  obtain ⟨h1, h2, h3⟩ := foldl_update_spec (fun p : Int × Int => offset h p.2 p.1)
    (fun c p => applyRules c (offset h p.2 p.1) (countNeighbors w h c p.2 p.1))
    (fun c p => { status := (c (offset h p.2 p.1)).status,
                  next_status := nextValue (c (offset h p.2 p.1)).status
                    (countNeighbors w h c p.2 p.1) (c (offset h p.2 p.1)).next_status })
    (fun c k => (c k).status)
    (fun c p k hk => by
      have hk' : k ≠ offset h p.2 p.1 := hk
      simp only [applyRules_apply, if_neg hk'])
    (fun c p => by simp only [applyRules_apply, if_pos])
    (fun c p => by
      funext k
      simp only [applyRules_apply]
      split_ifs with hk
      · rw [hk]
      · rfl)
    (fun c c' p hc hs => by
      simp only [hc, countNeighbors_congr w h c c' p.2 p.1 hs])
    c _ (pairs_nodup w h) (pairs_inj w h)
  rw [hfold]
  refine ⟨fun i j hij => h1 (j, i) ((mem_pairs w h (j, i)).2 hij), fun k hk => ?_,
    fun k => congrFun h3 k⟩
  exact h2 k (fun p hp => hk p.2 p.1 ((mem_pairs w h p).1 hp))

/-- The commit pass of an unpaused tick moves `next_status` into `status` and
clears `next_status`, for each grid cell and for nothing else. -/
theorem commitPass_spec (w h : Int) (c : Cells) :
    (∀ i j, inGrid w h i j →
      commitPass w h false c (offset h i j) =
        { status := (c (offset h i j)).next_status, next_status := 0 }) ∧
    (∀ k, (∀ i j, inGrid w h i j → offset h i j ≠ k) → commitPass w h false c k = c k) := by
  have hfold : commitPass w h false c =
      (List.product (loopRange h) (loopRange w)).foldl
        (fun c p => commitCell false c (offset h p.2 p.1)) c :=
    foldl_nested (fun c j i => commitCell false c (offset h i j))
      (loopRange h) (loopRange w) c
  obtain ⟨h1, h2, _⟩ := foldl_update_spec (fun p : Int × Int => offset h p.2 p.1)
    (fun c p => commitCell false c (offset h p.2 p.1))
    (fun c p => { status := (c (offset h p.2 p.1)).next_status, next_status := 0 })
    (fun _ => ())
    (fun c p k hk => by
      have hk' : k ≠ offset h p.2 p.1 := hk
      simp [commitCell, hk'])
    (fun c p => by simp [commitCell])
    (fun c p => rfl)
    (fun c c' p hc _ => by simp only [hc])
    c _ (pairs_nodup w h) (pairs_inj w h)
  rw [hfold]
  refine ⟨fun i j hij => h1 (j, i) ((mem_pairs w h (j, i)).2 hij), fun k hk => ?_⟩
  exact h2 k (fun p hp => hk p.2 p.1 ((mem_pairs w h p).1 hp))

/-- While paused the commit loops change nothing. -/
theorem commitPass_paused (w h : Int) (c : Cells) : commitPass w h true c = c := by
  unfold commitPass
  apply foldl_fixed_id
  intro c j
  apply foldl_fixed_id
  intro c i
  rfl

/-! ## The neighbour loop -/

theorem tmod_wrap (n i x : Int) (hi : 0 ≤ i ∧ i < n) (hx : -1 ≤ x ∧ x ≤ 1) :
    Int.tmod (i + x + n) n = (i + x) % n := by
  rw [Int.tmod_eq_emod (by omega) (by omega), Int.add_emod_self]

theorem emod_dec (n i : Int) (hi : 0 ≤ i ∧ i < n) : (i + -1) % n = wrapDec n i := by
  unfold wrapDec
  split_ifs with h0
  · subst h0
    have e : ((0 : Int) + -1) % n = ((0 + -1) + n) % n := Int.add_emod_self.symm
    rw [e]
    have e2 : ((0 : Int) + -1) + n = n - 1 := by ring
    rw [e2]
    exact Int.emod_eq_of_lt (by omega) (by omega)
  · exact Int.emod_eq_of_lt (by omega) (by omega)

theorem emod_inc (n i : Int) (hi : 0 ≤ i ∧ i < n) : (i + 1) % n = wrapInc n i := by
  unfold wrapInc
  split_ifs with h0
  · rw [h0]; exact Int.emod_self
  · exact Int.emod_eq_of_lt (by omega) (by omega)

theorem emod_same (n i : Int) (hi : 0 ≤ i ∧ i < n) : (i + 0) % n = i := by
  rw [add_zero]; exact Int.emod_eq_of_lt hi.1 hi.2

theorem wrapDec_range (n i : Int) (hi : 0 ≤ i ∧ i < n) : 0 ≤ wrapDec n i ∧ wrapDec n i < n := by
  unfold wrapDec; split_ifs <;> omega

theorem wrapInc_range (n i : Int) (hi : 0 ≤ i ∧ i < n) : 0 ≤ wrapInc n i ∧ wrapInc n i < n := by
  unfold wrapInc; split_ifs <;> omega

theorem ite_succ (p : Prop) [Decidable p] (n : Int) :
    (if p then n + 1 else n) = n + (if p then 1 else 0) := by
  split_ifs <;> simp

/-- The neighbour loop as a sum over the eight wrapped neighbours. -/
theorem countNeighbors_eq_sum (w h : Int) (c : Cells) (i j : Int) (hij : inGrid w h i j) :
    countNeighbors w h c i j =
      live h c (wrapDec w i) (wrapDec h j) + live h c i (wrapDec h j)
        + live h c (wrapInc w i) (wrapDec h j)
        + live h c (wrapDec w i) j + live h c (wrapInc w i) j
        + live h c (wrapDec w i) (wrapInc h j) + live h c i (wrapInc h j)
        + live h c (wrapInc w i) (wrapInc h j) := by
  obtain ⟨hi0, hi1, hj0, hj1⟩ := hij
  have a1 := tmod_wrap w i (-1) ⟨hi0, hi1⟩ (by omega)
  have a2 := tmod_wrap w i 0 ⟨hi0, hi1⟩ (by omega)
  have a3 := tmod_wrap w i 1 ⟨hi0, hi1⟩ (by omega)
  have b1 := tmod_wrap h j (-1) ⟨hj0, hj1⟩ (by omega)
  have b2 := tmod_wrap h j 0 ⟨hj0, hj1⟩ (by omega)
  have b3 := tmod_wrap h j 1 ⟨hj0, hj1⟩ (by omega)
  rw [emod_dec w i ⟨hi0, hi1⟩] at a1
  rw [emod_same w i ⟨hi0, hi1⟩] at a2
  rw [emod_inc w i ⟨hi0, hi1⟩] at a3
  rw [emod_dec h j ⟨hj0, hj1⟩] at b1
  rw [emod_same h j ⟨hj0, hj1⟩] at b2
  rw [emod_inc h j ⟨hj0, hj1⟩] at b3
  unfold countNeighbors neighborSteps live
  simp only [List.foldl, a1, a2, a3, b1, b2, b3, ite_succ]
  simp

theorem length_filter_cons {α : Type} (p : α → Bool) (a : α) (l : List α) :
    (((a :: l).filter p).length : Int) = (if p a = true then 1 else 0) + ((l.filter p).length : Int) := by
  rw [List.filter_cons]
  split_ifs <;> simp; omega

theorem neighborOffsets_eq :
    neighborOffsets = [(-1, -1), (-1, 0), (-1, 1), (0, -1), (0, 1), (1, -1), (1, 0), (1, 1)] := by
  decide

/-- The specification count as a sum over the eight wrapped neighbours. -/
theorem bruteForceCount_eq_sum (w h : Int) (c : Cells) (i j : Int) (hij : inGrid w h i j) :
    (bruteForceCount w h c i j : Int) =
      live h c (wrapDec w i) (wrapDec h j) + live h c i (wrapDec h j)
        + live h c (wrapInc w i) (wrapDec h j)
        + live h c (wrapDec w i) j + live h c (wrapInc w i) j
        + live h c (wrapDec w i) (wrapInc h j) + live h c i (wrapInc h j)
        + live h c (wrapInc w i) (wrapInc h j) := by
  obtain ⟨hi0, hi1, hj0, hj1⟩ := hij
  unfold bruteForceCount
  rw [neighborOffsets_eq]
  simp only [length_filter_cons, List.filter_nil, List.length_nil, decide_eq_true_eq,
    emod_dec w i ⟨hi0, hi1⟩, emod_same w i ⟨hi0, hi1⟩, emod_inc w i ⟨hi0, hi1⟩,
    emod_dec h j ⟨hj0, hj1⟩, emod_same h j ⟨hj0, hj1⟩, emod_inc h j ⟨hj0, hj1⟩]
  unfold live
  simp only [Nat.cast_zero]
  ring

/-! ## One tick -/

/-- Compute followed by commit, cell by cell: every grid cell ends with the
rule value computed from the contents before the tick, and a cleared
`next_status`; nothing outside the grid changes. -/
theorem generation_spec (w h : Int) (c : Cells) :
    (∀ i j, inGrid w h i j →
      commitPass w h false (computePass w h c) (offset h i j) =
        { status := nextValue (c (offset h i j)).status (countNeighbors w h c i j)
            (c (offset h i j)).next_status,
          next_status := 0 }) ∧
    (∀ k, (∀ i j, inGrid w h i j → offset h i j ≠ k) →
      commitPass w h false (computePass w h c) k = c k) := by
  obtain ⟨c1, c2, _⟩ := computePass_spec w h c
  obtain ⟨d1, d2⟩ := commitPass_spec w h (computePass w h c)
  refine ⟨fun i j hij => ?_, fun k hk => ?_⟩
  · rw [d1 i j hij, c1 i j hij]
  · rw [d2 k hk, c2 k hk]

theorem tick_nil (w h : Int) (s : State) :
    tick w h s [] = some { s with
      cells := commitPass w h s.paused
        (if !s.paused then computePass w h s.cells else s.cells) } := rfl

theorem tick_of_poll (w h : Int) (s s1 : State) (events : List Event)
    (hp : pollEvents w h s events = some s1) :
    tick w h s events = some { s1 with
      cells := commitPass w h s1.paused
        (if !s1.paused then computePass w h s1.cells else s1.cells) } := by
  unfold tick
  rw [hp]

/-- With `next_status` cleared and a 0/1 status, the rule branches give the
textbook rule. -/
theorem nextValue_conway (st n : Int) (hst : st = 0 ∨ st = 1) :
    nextValue st n 0 = if (st = 1 ∧ (n = 2 ∨ n = 3)) ∨ (st = 0 ∧ n = 3) then 1 else 0 := by
  unfold nextValue
  rcases hst with h | h <;> subst h <;> split_ifs <;> omega


/-! ## Events -/

theorem toggleCell_inGrid (w h : Int) (c : Cells) (x y : Int) (hxy : inGrid w h x y) :
    toggleCell w h c x y =
      some (setStatus c (offset h x y) (if (c (offset h x y)).status = 0 then 1 else 0)) := by
  unfold toggleCell
  rw [if_pos (inArray_offset w h x y ⟨hxy.1, hxy.2.1⟩ ⟨hxy.2.2.1, hxy.2.2.2⟩)]
  split_ifs <;> rfl

theorem setStatus_wellFormed (w h : Int) (c : Cells) (k v : Int) (hv : v = 0 ∨ v = 1)
    (hc : wellFormed w h c) : wellFormed w h (setStatus c k v) := by
  intro i j hij
  unfold setStatus
  split_ifs with hk
  · exact ⟨(hc i j hij).1, hv⟩
  · exact hc i j hij

theorem handleEvent_wellFormed (w h : Int) (s : State) (e : Event)
    (he : ¬ clickOutside w h e) (hs : wellFormed w h s.cells) :
    ∃ s', handleEvent w h s e = some s' ∧ wellFormed w h s'.cells := by
  cases e with
  | closed => exact ⟨_, rfl, hs⟩
  | keyPressed isSpace =>
    refine ⟨_, rfl, ?_⟩
    cases isSpace <;> exact hs
  | mouseButtonPressed x y =>
    have hin : inGrid w h (Int.tdiv x BLOCK_WIDTH) (Int.tdiv y BLOCK_HEIGHT) := by
      by_contra hn
      exact he hn
    simp only [handleEvent, toggleCell_inGrid w h s.cells _ _ hin]
    refine ⟨_, rfl, ?_⟩
    apply setStatus_wellFormed _ _ _ _ _ _ hs
    split_ifs <;> simp
  | other => exact ⟨_, rfl, hs⟩

theorem pollEvents_wellFormed (w h : Int) (events : List Event) (s : State)
    (he : ∀ e ∈ events, ¬ clickOutside w h e) (hs : wellFormed w h s.cells) :
    ∃ s', pollEvents w h s events = some s' ∧ wellFormed w h s'.cells := by
  induction events generalizing s with
  | nil => exact ⟨s, rfl, hs⟩
  | cons e es ih =>
    obtain ⟨s1, h1, hw1⟩ := handleEvent_wellFormed w h s e (he e (List.mem_cons_self e es)) hs
    obtain ⟨s2, h2, hw2⟩ := ih s1 (fun e' he' => he e' (List.mem_cons_of_mem e he')) hw1
    refine ⟨s2, ?_, hw2⟩
    unfold pollEvents
    rw [h1]
    exact h2

theorem handleEvent_noClick (w h : Int) (s : State) (e : Event) (he : isClick e = false) :
    ∃ s', handleEvent w h s e = some s' ∧ s'.cells = s.cells := by
  cases e with
  | closed => exact ⟨_, rfl, rfl⟩
  | keyPressed isSpace =>
    refine ⟨_, rfl, ?_⟩
    cases isSpace <;> rfl
  | mouseButtonPressed x y => simp [isClick] at he
  | other => exact ⟨_, rfl, rfl⟩

theorem pollEvents_noClick (w h : Int) (events : List Event) (s : State)
    (he : ∀ e ∈ events, isClick e = false) :
    ∃ s', pollEvents w h s events = some s' ∧ s'.cells = s.cells := by
  induction events generalizing s with
  | nil => exact ⟨s, rfl, rfl⟩
  | cons e es ih =>
    obtain ⟨s1, h1, hc1⟩ := handleEvent_noClick w h s e (he e (List.mem_cons_self e es))
    obtain ⟨s2, h2, hc2⟩ := ih s1 (fun e' he' => he e' (List.mem_cons_of_mem e he'))
    refine ⟨s2, ?_, by rw [hc2, hc1]⟩
    unfold pollEvents
    rw [h1]
    exact h2

theorem nextValue_zero_or_one (st n : Int) : nextValue st n 0 = 0 ∨ nextValue st n 0 = 1 := by
  unfold nextValue
  split_ifs <;> simp

/-- The commit loops, paused or not, after the guarded compute loops. -/
theorem tick_cells_paused (w h : Int) (c : Cells) :
    commitPass w h true (if !true then computePass w h c else c) = c := by
  simp [commitPass_paused]

theorem generation_wellFormed (w h : Int) (c : Cells) (hc : wellFormed w h c) :
    wellFormed w h (commitPass w h false (computePass w h c)) := by
  intro i j hij
  rw [(generation_spec w h c).1 i j hij, (hc i j hij).1]
  exact ⟨rfl, nextValue_zero_or_one _ _⟩

/-! ## Start-up -/

theorem initLoop_spec (w h : Int) (c : Cells) :
    ∀ i j, inGrid w h i j →
      initLoop w h c (offset h i j) = { status := 0, next_status := 0 } := by
  have hfold : initLoop w h c =
      (List.product (loopRange h) (loopRange w)).foldl
        (fun c p => clearCell c (offset h p.2 p.1)) c :=
    foldl_nested (fun c j i => clearCell c (offset h i j)) (loopRange h) (loopRange w) c
  obtain ⟨h1, _, _⟩ := foldl_update_spec (fun p : Int × Int => offset h p.2 p.1)
    (fun c p => clearCell c (offset h p.2 p.1))
    (fun _ _ => { status := 0, next_status := 0 })
    (fun _ => ())
    (fun c p k hk => by
      have hk' : k ≠ offset h p.2 p.1 := hk
      simp [clearCell, hk'])
    (fun c p => by simp [clearCell])
    (fun c p => rfl)
    (fun c c' p _ _ => rfl)
    c _ (pairs_nodup w h) (pairs_inj w h)
  rw [hfold]
  exact fun i j hij => h1 (j, i) ((mem_pairs w h (j, i)).2 hij)

theorem markAlive_inArray (w h : Int) (ps : List (Int × Int)) (c : Cells)
    (hps : ∀ p ∈ ps, inArray w h (offset h p.1 p.2)) :
    markAlive w h c ps = some (ps.foldl (fun c p => setStatus c (offset h p.1 p.2) 1) c) := by
  induction ps generalizing c with
  | nil => rfl
  | cons p ps ih =>
    unfold markAlive writeStatus
    rw [if_pos (hps p (List.mem_cons_self p ps))]
    exact ih _ (fun q hq => hps q (List.mem_cons_of_mem p hq))

theorem setStatus_apply (c : Cells) (k v m : Int) :
    setStatus c k v m = if m = k then { c m with status := v } else c m := rfl

theorem foldl_setStatus_apply (h : Int) (ps : List (Int × Int)) (c : Cells) (k : Int) :
    (ps.foldl (fun c p => setStatus c (offset h p.1 p.2) 1) c) k =
      { status := if k ∈ ps.map (fun p => offset h p.1 p.2) then 1 else (c k).status,
        next_status := (c k).next_status } := by
  induction ps generalizing c with
  | nil => simp
  | cons p ps ih =>
    rw [List.foldl_cons, ih, setStatus_apply]
    by_cases hk : k = offset h p.1 p.2
    · simp [hk]
    · simp only [List.map_cons, List.mem_cons, hk, false_or, if_false]

theorem initialAlive_inArray :
    ∀ p ∈ initialAlive, inArray numCellsInRow numCellsInColumn (offset numCellsInColumn p.1 p.2) := by
  decide

/-- The contents of the grid when the main loop is entered. -/
theorem startup_spec (mem : Cells) :
    ∃ c0, startup mem = some c0 ∧
      ∀ i j, inGrid numCellsInRow numCellsInColumn i j →
        c0 (offset numCellsInColumn i j) =
          { status := if (i, j) ∈ startupLive then 1 else 0, next_status := 0 } := by
  have hs : startup mem = some (initialAlive.foldl
      (fun c p => setStatus c (offset numCellsInColumn p.1 p.2) 1)
      (initLoop numCellsInRow numCellsInColumn mem)) :=
    markAlive_inArray numCellsInRow numCellsInColumn initialAlive
      (initLoop numCellsInRow numCellsInColumn mem) initialAlive_inArray
  refine ⟨_, hs, fun i j hij => ?_⟩
  rw [foldl_setStatus_apply, initLoop_spec _ _ _ i j hij]
  have hc : numCellsInColumn = 40 := by decide
  have hr : numCellsInRow = 75 := by decide
  rw [hc, hr] at hij
  obtain ⟨hi0, hi1, hj0, hj1⟩ := hij
  have key : ∀ a b : Int, 0 ≤ b → b < 40 → (i * 40 + j = a * 40 + b ↔ (i = a ∧ j = b)) := by
    intro a b hb0 hb1
    constructor <;> intro e <;> omega
  have e1 : (52 : Int) * 40 + 53 = 53 * 40 + 13 := by norm_num
  have e2 : (52 : Int) * 40 + 54 = 53 * 40 + 14 := by norm_num
  have e3 : (53 : Int) * 40 + 53 = 54 * 40 + 13 := by norm_num
  have e4 : (53 : Int) * 40 + 54 = 54 * 40 + 14 := by norm_num
  simp only [hc, initialAlive, startupLive, offset, List.map, List.mem_cons, List.mem_singleton,
    List.not_mem_nil, or_false, Prod.mk.injEq, e1, e2, e3, e4]
  simp only [key 13 12 (by norm_num) (by norm_num), key 11 13 (by norm_num) (by norm_num),
    key 13 13 (by norm_num) (by norm_num), key 12 14 (by norm_num) (by norm_num),
    key 13 14 (by norm_num) (by norm_num), key 53 13 (by norm_num) (by norm_num),
    key 53 14 (by norm_num) (by norm_num), key 54 13 (by norm_num) (by norm_num),
    key 54 14 (by norm_num) (by norm_num)]

/-! ## Patterns on the grid -/

theorem live_of_shows (w h : Int) (c : Cells) (L : List (Int × Int)) (hs : shows w h c L)
    (a b : Int) (hab : inGrid w h a b) : live h c a b = mark L a b := by
  unfold live
  rw [hs a b hab]
  show (if mark L a b = 1 then (1 : Int) else 0) = mark L a b
  unfold mark
  split_ifs <;> simp_all

theorem mark_eq_zero (L : List (Int × Int)) (x0 x1 y0 y1 : Int)
    (hL : ∀ p ∈ L, x0 < p.1 ∧ p.1 < x1 ∧ y0 < p.2 ∧ p.2 < y1) (a b : Int)
    (hab : a ≤ x0 ∨ x1 ≤ a ∨ b ≤ y0 ∨ y1 ≤ b) : mark L a b = 0 := by
  unfold mark
  rw [if_neg]
  intro hm
  have := hL (a, b) hm
  simp only at this
  omega

theorem mark_congr (L : List (Int × Int)) (x0 x1 y0 y1 : Int)
    (hL : ∀ p ∈ L, x0 < p.1 ∧ p.1 < x1 ∧ y0 < p.2 ∧ p.2 < y1) (a b a' b' : Int)
    (hab : (a = a' ∧ b = b') ∨
      ((a ≤ x0 ∨ x1 ≤ a ∨ b ≤ y0 ∨ y1 ≤ b) ∧ (a' ≤ x0 ∨ x1 ≤ a' ∨ b' ≤ y0 ∨ y1 ≤ b'))) :
    mark L a b = mark L a' b' := by
  rcases hab with ⟨rfl, rfl⟩ | ⟨h1, h2⟩
  · rfl
  · rw [mark_eq_zero L x0 x1 y0 y1 hL a b h1, mark_eq_zero L x0 x1 y0 y1 hL a' b' h2]

/-- One generation of a pattern that keeps one free row and column next to
every edge of the grid: the wrap-around is not felt and the new statuses are
those of the unbounded plane. -/
theorem generation_plane (w h : Int) (c : Cells) (L : List (Int × Int))
    (hL : ∀ p ∈ L, 0 < p.1 ∧ p.1 < w - 1 ∧ 0 < p.2 ∧ p.2 < h - 1)
    (hs : shows w h c L) (i j : Int) (hij : inGrid w h i j) :
    commitPass w h false (computePass w h c) (offset h i j) =
      { status := planeNext L i j, next_status := 0 } := by
  obtain ⟨hi0, hi1, hj0, hj1⟩ := hij
  have hij : inGrid w h i j := ⟨hi0, hi1, hj0, hj1⟩
  have dI := wrapDec_range w i ⟨hi0, hi1⟩
  have uI := wrapInc_range w i ⟨hi0, hi1⟩
  have dJ := wrapDec_range h j ⟨hj0, hj1⟩
  have uJ := wrapInc_range h j ⟨hj0, hj1⟩
  have hdI : wrapDec w i = i - 1 ∨ (wrapDec w i = w - 1 ∧ i = 0) := by unfold wrapDec; omega
  have huI : wrapInc w i = i + 1 ∨ (wrapInc w i = 0 ∧ i + 1 = w) := by unfold wrapInc; omega
  have hdJ : wrapDec h j = j - 1 ∨ (wrapDec h j = h - 1 ∧ j = 0) := by unfold wrapDec; omega
  have huJ : wrapInc h j = j + 1 ∨ (wrapInc h j = 0 ∧ j + 1 = h) := by unfold wrapInc; omega
  rw [(generation_spec w h c).1 i j hij, countNeighbors_eq_sum w h c i j hij, hs i j hij,
    live_of_shows w h c L hs _ _ ⟨dI.1, dI.2, dJ.1, dJ.2⟩,
    live_of_shows w h c L hs _ _ ⟨hi0, hi1, dJ.1, dJ.2⟩,
    live_of_shows w h c L hs _ _ ⟨uI.1, uI.2, dJ.1, dJ.2⟩,
    live_of_shows w h c L hs _ _ ⟨dI.1, dI.2, hj0, hj1⟩,
    live_of_shows w h c L hs _ _ ⟨uI.1, uI.2, hj0, hj1⟩,
    live_of_shows w h c L hs _ _ ⟨dI.1, dI.2, uJ.1, uJ.2⟩,
    live_of_shows w h c L hs _ _ ⟨hi0, hi1, uJ.1, uJ.2⟩,
    live_of_shows w h c L hs _ _ ⟨uI.1, uI.2, uJ.1, uJ.2⟩,
    mark_congr L 0 (w - 1) 0 (h - 1) hL (wrapDec w i) (wrapDec h j) (i - 1) (j - 1) (by omega),
    mark_congr L 0 (w - 1) 0 (h - 1) hL i (wrapDec h j) i (j - 1) (by omega),
    mark_congr L 0 (w - 1) 0 (h - 1) hL (wrapInc w i) (wrapDec h j) (i + 1) (j - 1) (by omega),
    mark_congr L 0 (w - 1) 0 (h - 1) hL (wrapDec w i) j (i - 1) j (by omega),
    mark_congr L 0 (w - 1) 0 (h - 1) hL (wrapInc w i) j (i + 1) j (by omega),
    mark_congr L 0 (w - 1) 0 (h - 1) hL (wrapDec w i) (wrapInc h j) (i - 1) (j + 1) (by omega),
    mark_congr L 0 (w - 1) 0 (h - 1) hL i (wrapInc h j) i (j + 1) (by omega),
    mark_congr L 0 (w - 1) 0 (h - 1) hL (wrapInc w i) (wrapInc h j) (i + 1) (j + 1) (by omega)]
  rfl

/-- One generation of a pattern `L` that lies strictly inside a box which
itself lies inside the grid: when the plane rule sends `L` to `L'` on the box,
the grid shows `L'` afterwards. -/
theorem generation_box (w h : Int) (c : Cells) (L L' : List (Int × Int))
    (x0 x1 y0 y1 : Int) (hbox : 0 ≤ x0 ∧ x1 < w ∧ 0 ≤ y0 ∧ y1 < h)
    (hL : ∀ p ∈ L, x0 < p.1 ∧ p.1 < x1 ∧ y0 < p.2 ∧ p.2 < y1)
    (hL' : ∀ p ∈ L', x0 - 1 < p.1 ∧ p.1 < x1 + 1 ∧ y0 - 1 < p.2 ∧ p.2 < y1 + 1)
    (hstep : ∀ i, x0 ≤ i → i ≤ x1 → ∀ j, y0 ≤ j → j ≤ y1 → planeNext L i j = mark L' i j)
    (hs : shows w h c L) :
    shows w h (commitPass w h false (computePass w h c)) L' := by
  intro i j hij
  have hLw : ∀ p ∈ L, 0 < p.1 ∧ p.1 < w - 1 ∧ 0 < p.2 ∧ p.2 < h - 1 := fun p hp => by
    have := hL p hp
    omega
  rw [generation_plane w h c L hLw hs i j hij]
  by_cases hin : (x0 ≤ i ∧ i ≤ x1) ∧ (y0 ≤ j ∧ j ≤ y1)
  · rw [hstep i hin.1.1 hin.1.2 j hin.2.1 hin.2.2]
  · have z : ∀ a b, (a = i - 1 ∨ a = i ∨ a = i + 1) → (b = j - 1 ∨ b = j ∨ b = j + 1) →
        mark L a b = 0 := fun a b ha hb =>
      mark_eq_zero L x0 x1 y0 y1 hL a b (by omega)
    have z' : mark L' i j = 0 :=
      mark_eq_zero L' (x0 - 1) (x1 + 1) (y0 - 1) (y1 + 1) hL' i j (by omega)
    unfold planeNext planeCount
    rw [z' , z (i - 1) (j - 1) (by omega) (by omega), z i (j - 1) (by omega) (by omega),
      z (i + 1) (j - 1) (by omega) (by omega), z (i - 1) j (by omega) (by omega),
      z (i + 1) j (by omega) (by omega), z (i - 1) (j + 1) (by omega) (by omega),
      z i (j + 1) (by omega) (by omega), z (i + 1) (j + 1) (by omega) (by omega),
      z i j (by omega) (by omega)]
    rfl

theorem glider_step0 :
    ∀ i : Int, 9 ≤ i → i ≤ 17 → ∀ j : Int, 10 ≤ j → j ≤ 18 →
      planeNext gliderStart i j = mark glider1 i j := by
  decide

theorem glider_step1 :
    ∀ i : Int, 9 ≤ i → i ≤ 17 → ∀ j : Int, 10 ≤ j → j ≤ 18 →
      planeNext glider1 i j = mark glider2 i j := by
  decide

theorem glider_step2 :
    ∀ i : Int, 9 ≤ i → i ≤ 17 → ∀ j : Int, 10 ≤ j → j ≤ 18 →
      planeNext glider2 i j = mark glider3 i j := by
  decide

theorem glider_step3 :
    ∀ i : Int, 9 ≤ i → i ≤ 17 → ∀ j : Int, 10 ≤ j → j ≤ 18 →
      planeNext glider3 i j = mark gliderEnd i j := by
  decide

theorem glider_inside :
    (∀ p ∈ gliderStart, (9 : Int) < p.1 ∧ p.1 < 17 ∧ (10 : Int) < p.2 ∧ p.2 < 18) ∧
    (∀ p ∈ glider1, (9 : Int) < p.1 ∧ p.1 < 17 ∧ (10 : Int) < p.2 ∧ p.2 < 18) ∧
    (∀ p ∈ glider2, (9 : Int) < p.1 ∧ p.1 < 17 ∧ (10 : Int) < p.2 ∧ p.2 < 18) ∧
    (∀ p ∈ glider3, (9 : Int) < p.1 ∧ p.1 < 17 ∧ (10 : Int) < p.2 ∧ p.2 < 18) ∧
    (∀ p ∈ gliderEnd, (9 : Int) < p.1 ∧ p.1 < 17 ∧ (10 : Int) < p.2 ∧ p.2 < 18) := by
  decide

theorem box_widen (L : List (Int × Int)) (x0 x1 y0 y1 : Int)
    (hL : ∀ p ∈ L, x0 < p.1 ∧ p.1 < x1 ∧ y0 < p.2 ∧ p.2 < y1) :
    ∀ p ∈ L, x0 - 1 < p.1 ∧ p.1 < x1 + 1 ∧ y0 - 1 < p.2 ∧ p.2 < y1 + 1 := fun p hp => by
  have := hL p hp
  omega

/-- Four generations of the glider on any grid of at least 20 by 20 cells. -/
theorem glider_four_generations (w h : Int) (hw : 20 ≤ w) (hh : 20 ≤ h) (c : Cells)
    (hs : shows w h c gliderStart) :
    shows w h
      (commitPass w h false (computePass w h
        (commitPass w h false (computePass w h
          (commitPass w h false (computePass w h
            (commitPass w h false (computePass w h c)))))))) gliderEnd := by
  obtain ⟨g0, g1, g2, g3, g4⟩ := glider_inside
  have hbox : (0 : Int) ≤ 9 ∧ (17 : Int) < w ∧ (0 : Int) ≤ 10 ∧ (18 : Int) < h := by omega
  have s1 := generation_box w h c gliderStart glider1 9 17 10 18 hbox g0
    (box_widen _ _ _ _ _ g1) glider_step0 hs
  have s2 := generation_box w h _ glider1 glider2 9 17 10 18 hbox g1
    (box_widen _ _ _ _ _ g2) glider_step1 s1
  have s3 := generation_box w h _ glider2 glider3 9 17 10 18 hbox g2
    (box_widen _ _ _ _ _ g3) glider_step2 s2
  exact generation_box w h _ glider3 gliderEnd 9 17 10 18 hbox g3
    (box_widen _ _ _ _ _ g4) glider_step3 s3

/-! ## Runs of unpaused ticks -/

theorem mainLoop_unpaused (w h : Int) (s : State) (rest : List (List Event))
    (ho : s.windowOpen = true) (hp : s.paused = false) :
    mainLoop w h s ([] :: rest) =
      mainLoop w h { s with cells := commitPass w h false (computePass w h s.cells) } rest := by
  rw [mainLoop, if_pos ho, tick_nil]
  simp only [hp, Bool.not_false, if_true]

theorem gridOf_shows (w h : Int) (L : List (Int × Int)) (hL : ∀ p ∈ L, 0 ≤ p.2 ∧ p.2 < h) :
    shows w h (gridOf h L) L := by
  intro i j hij
  have e : (offset h i j ∈ L.map (fun p => offset h p.1 p.2)) ↔ (i, j) ∈ L := by
    constructor
    · intro hm
      rcases List.mem_map.1 hm with ⟨p, hp, hpe⟩
      obtain ⟨e1, e2⟩ := offset_inj h p.1 p.2 i j (hL p hp) ⟨hij.2.2.1, hij.2.2.2⟩ hpe
      have : p = (i, j) := Prod.ext e1 e2
      exact this ▸ hp
    · intro hm
      exact List.mem_map.2 ⟨(i, j), hm, rfl⟩
  unfold gridOf mark
  simp only [e]

/-- Indicator of the three ring positions around `x`. -/
theorem triple_sum (n x i : Int) (hn : 5 ≤ n) (hx : 0 ≤ x ∧ x < n) (hi : 0 ≤ i ∧ i < n)
    (t e s3 : Int)
    (ht : t = if (i = wrapDec n x ∨ i = x ∨ i = wrapInc n x) then 1 else 0)
    (he : e = if i = x then 1 else 0)
    (hs3 : s3 = (if (wrapDec n i = wrapDec n x ∨ wrapDec n i = x ∨ wrapDec n i = wrapInc n x)
        then 1 else 0) + t
      + (if (wrapInc n i = wrapDec n x ∨ wrapInc n i = x ∨ wrapInc n i = wrapInc n x)
        then 1 else 0)) :
    (e = 1 ∧ t = 1 ∧ s3 = 3) ∨ (e = 0 ∧ t = 1 ∧ s3 = 2) ∨ (e = 0 ∧ t = 0 ∧ 0 ≤ s3 ∧ s3 ≤ 1) := by
  subst ht he hs3
  unfold wrapDec wrapInc
  omega

/-- Indicator of one ring position `y`. -/
theorem single_sum (n y j : Int) (hn : 3 ≤ n) (hy : 0 ≤ y ∧ y < n) (hj : 0 ≤ j ∧ j < n)
    (u s1 : Int)
    (hu : u = if j = y then 1 else 0)
    (hs1 : s1 = (if wrapDec n j = y then 1 else 0) + u + (if wrapInc n j = y then 1 else 0)) :
    ((u = 1 ∧ s1 = 1) ∨ (u = 0 ∧ s1 = 1) ∨ (u = 0 ∧ s1 = 0)) ∧
    s1 = if (j = wrapDec n y ∨ j = y ∨ j = wrapInc n y) then 1 else 0 := by
  subst hu hs1
  unfold wrapDec wrapInc
  omega

/-- Indicator of two adjacent ring positions `x` and `x + 1`. -/
theorem pair_sum (n x i : Int) (hn : 3 ≤ n) (hx : 0 ≤ x ∧ x + 1 < n) (hi : 0 ≤ i ∧ i < n)
    (a s2 : Int)
    (ha : a = if (i = x ∨ i = x + 1) then 1 else 0)
    (hs2 : s2 = (if (wrapDec n i = x ∨ wrapDec n i = x + 1) then 1 else 0) + a
      + (if (wrapInc n i = x ∨ wrapInc n i = x + 1) then 1 else 0)) :
    (a = 1 ∧ s2 = 2) ∨ (a = 0 ∧ 0 ≤ s2 ∧ s2 ≤ 2) := by
  subst ha hs2
  unfold wrapDec wrapInc
  omega

theorem nextValue_cross (t e s3 u s1 : Int)
    (h3 : (e = 1 ∧ t = 1 ∧ s3 = 3) ∨ (e = 0 ∧ t = 1 ∧ s3 = 2) ∨
      (e = 0 ∧ t = 0 ∧ 0 ≤ s3 ∧ s3 ≤ 1))
    (h1 : (u = 1 ∧ s1 = 1) ∨ (u = 0 ∧ s1 = 1) ∨ (u = 0 ∧ s1 = 0)) :
    nextValue (t * u) (s3 * s1 - t * u) 0 = e * s1 := by
  rcases h3 with ⟨rfl, rfl, rfl⟩ | ⟨rfl, rfl, rfl⟩ | ⟨rfl, rfl, l, r⟩ <;>
    rcases h1 with ⟨rfl, rfl⟩ | ⟨rfl, rfl⟩ | ⟨rfl, rfl⟩ <;>
    first
      | decide
      | (interval_cases s3 <;> decide)

theorem nextValue_block (a sa b sb : Int)
    (ha : (a = 1 ∧ sa = 2) ∨ (a = 0 ∧ 0 ≤ sa ∧ sa ≤ 2))
    (hb : (b = 1 ∧ sb = 2) ∨ (b = 0 ∧ 0 ≤ sb ∧ sb ≤ 2)) :
    nextValue (a * b) (sa * sb - a * b) 0 = a * b := by
  rcases ha with ⟨rfl, rfl⟩ | ⟨rfl, l, r⟩ <;>
    rcases hb with ⟨rfl, rfl⟩ | ⟨rfl, l', r'⟩ <;>
    first
      | decide
      | (interval_cases sb <;> decide)
      | (interval_cases sa <;> decide)
      | (interval_cases sa <;> interval_cases sb <;> decide)

/-- One generation of a pattern that is a product of a set of columns and a
set of rows, given by their indicators `A` and `B`. -/
theorem generation_product (w h : Int) (c : Cells) (A B : Int → Int)
    (hA : ∀ a, A a = 0 ∨ A a = 1) (hB : ∀ b, B b = 0 ∨ B b = 1)
    (hc : ∀ a b, inGrid w h a b → c (offset h a b) = { status := A a * B b, next_status := 0 })
    (i j : Int) (hij : inGrid w h i j) :
    commitPass w h false (computePass w h c) (offset h i j) =
      { status := nextValue (A i * B j)
          ((A (wrapDec w i) + A i + A (wrapInc w i)) * (B (wrapDec h j) + B j + B (wrapInc h j))
            - A i * B j) 0,
        next_status := 0 } := by
  obtain ⟨hi0, hi1, hj0, hj1⟩ := hij
  have hij : inGrid w h i j := ⟨hi0, hi1, hj0, hj1⟩
  have dI := wrapDec_range w i ⟨hi0, hi1⟩
  have uI := wrapInc_range w i ⟨hi0, hi1⟩
  have dJ := wrapDec_range h j ⟨hj0, hj1⟩
  have uJ := wrapInc_range h j ⟨hj0, hj1⟩
  have hl : ∀ a b, inGrid w h a b → live h c a b = A a * B b := by
    intro a b hab
    unfold live
    rw [hc a b hab]
    show (if A a * B b = 1 then (1 : Int) else 0) = A a * B b
    rcases hA a with e | e <;> rcases hB b with e' | e' <;> rw [e, e'] <;> decide
  rw [(generation_spec w h c).1 i j hij, countNeighbors_eq_sum w h c i j hij, hc i j hij,
    hl _ _ ⟨dI.1, dI.2, dJ.1, dJ.2⟩, hl _ _ ⟨hi0, hi1, dJ.1, dJ.2⟩,
    hl _ _ ⟨uI.1, uI.2, dJ.1, dJ.2⟩, hl _ _ ⟨dI.1, dI.2, hj0, hj1⟩,
    hl _ _ ⟨uI.1, uI.2, hj0, hj1⟩, hl _ _ ⟨dI.1, dI.2, uJ.1, uJ.2⟩,
    hl _ _ ⟨hi0, hi1, uJ.1, uJ.2⟩, hl _ _ ⟨uI.1, uI.2, uJ.1, uJ.2⟩]
  congr 2
  ring

theorem ite_zero_or_one (p : Prop) [Decidable p] :
    (if p then (1 : Int) else 0) = 0 ∨ (if p then (1 : Int) else 0) = 1 := by
  split_ifs <;> simp

theorem mark_blinkerRow (w x y a b : Int) (hx : 0 ≤ x ∧ x < w) :
    mark (blinkerRow w x y) a b =
      (if (a = wrapDec w x ∨ a = x ∨ a = wrapInc w x) then 1 else 0) *
        (if b = y then 1 else 0) := by
  have e1 : (x - 1) % w = wrapDec w x := by rw [sub_eq_add_neg]; exact emod_dec w x hx
  unfold mark blinkerRow
  rw [e1, emod_inc w x hx]
  simp only [List.mem_cons, List.mem_singleton, List.not_mem_nil, or_false, Prod.mk.injEq]
  split_ifs <;> first | rfl | (exfalso; tauto)

theorem mark_blinkerColumn (h x y a b : Int) (hy : 0 ≤ y ∧ y < h) :
    mark (blinkerColumn h x y) a b =
      (if a = x then 1 else 0) *
        (if (b = wrapDec h y ∨ b = y ∨ b = wrapInc h y) then 1 else 0) := by
  have e1 : (y - 1) % h = wrapDec h y := by rw [sub_eq_add_neg]; exact emod_dec h y hy
  unfold mark blinkerColumn
  rw [e1, emod_inc h y hy]
  simp only [List.mem_cons, List.mem_singleton, List.not_mem_nil, or_false, Prod.mk.injEq]
  split_ifs <;> first | rfl | (exfalso; tauto)

theorem mark_block (x y a b : Int) :
    mark (block x y) a b =
      (if (a = x ∨ a = x + 1) then 1 else 0) * (if (b = y ∨ b = y + 1) then 1 else 0) := by
  unfold mark block
  simp only [List.mem_cons, List.mem_singleton, List.not_mem_nil, or_false, Prod.mk.injEq]
  split_ifs <;> first | rfl | (exfalso; tauto)

theorem gridOf_wellFormed (w h : Int) (L : List (Int × Int)) : wellFormed w h (gridOf h L) := by
  intro i j _
  refine ⟨rfl, ?_⟩
  show (if offset h i j ∈ L.map (fun p => offset h p.1 p.2) then (1 : Int) else 0) = 0 ∨
    (if offset h i j ∈ L.map (fun p => offset h p.1 p.2) then (1 : Int) else 0) = 1
  split_ifs
  · exact Or.inr rfl
  · exact Or.inl rfl

/-- A horizontal blinker becomes the vertical one with the same centre. -/
theorem blinker_row_to_column (w h : Int) (hw : 5 ≤ w) (hh : 5 ≤ h) (x y : Int)
    (hxy : inGrid w h x y) (c : Cells) (hs : shows w h c (blinkerRow w x y)) :
    shows w h (commitPass w h false (computePass w h c)) (blinkerColumn h x y) := by
  obtain ⟨hx0, hx1, hy0, hy1⟩ := hxy
  intro i j hij
  rw [generation_product w h c
      (fun a => if (a = wrapDec w x ∨ a = x ∨ a = wrapInc w x) then 1 else 0)
      (fun b => if b = y then 1 else 0)
      (fun a => ite_zero_or_one _) (fun b => ite_zero_or_one _)
      (fun a b hab => by rw [hs a b hab, mark_blinkerRow w x y a b ⟨hx0, hx1⟩]) i j hij,
    mark_blinkerColumn h x y i j ⟨hy0, hy1⟩]
  have h3 := triple_sum w x i hw ⟨hx0, hx1⟩ ⟨hij.1, hij.2.1⟩ _ _ _ rfl rfl rfl
  obtain ⟨h1, h1'⟩ := single_sum h y j (by omega) ⟨hy0, hy1⟩ ⟨hij.2.2.1, hij.2.2.2⟩ _ _ rfl rfl
  have key := nextValue_cross _ _ _ _ _ h3 h1
  rw [h1'] at key
  rw [← key, h1']

/-- A vertical blinker becomes the horizontal one with the same centre. -/
theorem blinker_column_to_row (w h : Int) (hw : 5 ≤ w) (hh : 5 ≤ h) (x y : Int)
    (hxy : inGrid w h x y) (c : Cells) (hs : shows w h c (blinkerColumn h x y)) :
    shows w h (commitPass w h false (computePass w h c)) (blinkerRow w x y) := by
  obtain ⟨hx0, hx1, hy0, hy1⟩ := hxy
  intro i j hij
  rw [generation_product w h c
      (fun a => if a = x then 1 else 0)
      (fun b => if (b = wrapDec h y ∨ b = y ∨ b = wrapInc h y) then 1 else 0)
      (fun a => ite_zero_or_one _) (fun b => ite_zero_or_one _)
      (fun a b hab => by rw [hs a b hab, mark_blinkerColumn h x y a b ⟨hy0, hy1⟩]) i j hij,
    mark_blinkerRow w x y i j ⟨hx0, hx1⟩]
  have h3 := triple_sum h y j hh ⟨hy0, hy1⟩ ⟨hij.2.2.1, hij.2.2.2⟩ _ _ _ rfl rfl rfl
  obtain ⟨h1, h1'⟩ := single_sum w x i (by omega) ⟨hx0, hx1⟩ ⟨hij.1, hij.2.1⟩ _ _ rfl rfl
  have key := nextValue_cross _ _ _ _ _ h3 h1
  rw [h1'] at key
  rw [mul_comm (if i = x then (1 : Int) else 0), mul_comm _ (_ + _ + _),
    mul_comm (if (i = wrapDec w x ∨ i = x ∨ i = wrapInc w x) then (1 : Int) else 0),
    ← key, h1']

/-- The block is unchanged by one generation on a grid of at least 3 by 3. -/
theorem block_still (w h : Int) (hw : 3 ≤ w) (hh : 3 ≤ h) (x y : Int)
    (hx : 0 ≤ x ∧ x + 1 < w) (hy : 0 ≤ y ∧ y + 1 < h) (c : Cells)
    (hs : shows w h c (block x y)) :
    shows w h (commitPass w h false (computePass w h c)) (block x y) := by
  intro i j hij
  rw [generation_product w h c
      (fun a => if (a = x ∨ a = x + 1) then 1 else 0)
      (fun b => if (b = y ∨ b = y + 1) then 1 else 0)
      (fun a => ite_zero_or_one _) (fun b => ite_zero_or_one _)
      (fun a b hab => by rw [hs a b hab, mark_block x y a b]) i j hij,
    mark_block x y i j]
  have ha := pair_sum w x i hw hx ⟨hij.1, hij.2.1⟩ _ _ rfl rfl
  have hb := pair_sum h y j hh hy ⟨hij.2.2.1, hij.2.2.2⟩ _ _ rfl rfl
  have key := nextValue_block _ _ _ _ ha hb
  rw [key]

/-- Any number of unpaused ticks without events, for a pattern that one
generation leaves as it is. -/
theorem mainLoop_still (w h : Int) (L : List (Int × Int))
    (hL : ∀ c, shows w h c L → shows w h (commitPass w h false (computePass w h c)) L)
    (n : Nat) (s : State) (ho : s.windowOpen = true) (hp : s.paused = false)
    (hs : shows w h s.cells L) :
    ∃ s', mainLoop w h s (List.replicate n []) = some s' ∧ shows w h s'.cells L := by
  induction n generalizing s with
  | zero => exact ⟨s, rfl, hs⟩
  | succ n ih =>
    rw [List.replicate_succ, mainLoop_unpaused w h s _ ho hp]
    exact ih _ ho hp (hL _ hs)

theorem mainLoop_gen (w h : Int) (c : Cells) (rest : List (List Event)) :
    mainLoop w h { cells := c, paused := false, windowOpen := true } ([] :: rest) =
      mainLoop w h { cells := commitPass w h false (computePass w h c), paused := false,
                     windowOpen := true } rest :=
  mainLoop_unpaused w h _ rest rfl rfl

/-! ## States the main loop can reach -/

theorem toggleCell_some_wellFormed (w h : Int) (c c' : Cells) (x y : Int)
    (ht : toggleCell w h c x y = some c') (hc : wellFormed w h c) : wellFormed w h c' := by
  unfold toggleCell at ht
  split_ifs at ht with hin h0
  · rw [← Option.some.inj ht]
    exact setStatus_wellFormed w h c _ 1 (Or.inr rfl) hc
  · rw [← Option.some.inj ht]
    exact setStatus_wellFormed w h c _ 0 (Or.inl rfl) hc

theorem handleEvent_some_wellFormed (w h : Int) (s s' : State) (e : Event)
    (he : handleEvent w h s e = some s') (hs : wellFormed w h s.cells) :
    wellFormed w h s'.cells := by
  cases e with
  | closed =>
    rw [← Option.some.inj he]
    exact hs
  | keyPressed isSpace =>
    rw [← Option.some.inj he]
    cases isSpace <;> exact hs
  | mouseButtonPressed x y =>
    simp only [handleEvent] at he
    cases ht : toggleCell w h s.cells (Int.tdiv x BLOCK_WIDTH) (Int.tdiv y BLOCK_HEIGHT) with
    | none => rw [ht] at he; exact absurd he (by simp)
    | some c' =>
      rw [ht] at he
      rw [← Option.some.inj he]
      exact toggleCell_some_wellFormed w h s.cells c' _ _ ht hs
  | other =>
    rw [← Option.some.inj he]
    exact hs

theorem pollEvents_some_wellFormed (w h : Int) (events : List Event) (s s' : State)
    (hp : pollEvents w h s events = some s') (hs : wellFormed w h s.cells) :
    wellFormed w h s'.cells := by
  induction events generalizing s with
  | nil =>
    rw [← Option.some.inj hp]
    exact hs
  | cons e es ih =>
    unfold pollEvents at hp
    cases he : handleEvent w h s e with
    | none => rw [he] at hp; exact absurd hp (by simp)
    | some s1 =>
      rw [he] at hp
      exact ih s1 hp (handleEvent_some_wellFormed w h s s1 e he hs)

theorem tick_some_wellFormed (w h : Int) (events : List Event) (s s' : State)
    (ht : tick w h s events = some s') (hs : wellFormed w h s.cells) :
    wellFormed w h s'.cells := by
  cases hp : pollEvents w h s events with
  | none =>
    unfold tick at ht
    rw [hp] at ht
    exact absurd ht (by simp)
  | some s1 =>
    have hw1 := pollEvents_some_wellFormed w h events s s1 hp hs
    rw [tick_of_poll w h s s1 events hp] at ht
    rw [← Option.some.inj ht]
    cases hpa : s1.paused
    · simp only [Bool.not_false, if_true]
      exact generation_wellFormed w h s1.cells hw1
    · simp only [tick_cells_paused]
      exact hw1

theorem mainLoop_some_wellFormed (w h : Int) (schedule : List (List Event)) (s s' : State)
    (hm : mainLoop w h s schedule = some s') (hs : wellFormed w h s.cells) :
    wellFormed w h s'.cells := by
  induction schedule generalizing s with
  | nil =>
    rw [← Option.some.inj hm]
    exact hs
  | cons events rest ih =>
    unfold mainLoop at hm
    split_ifs at hm with ho
    · cases ht : tick w h s events with
      | none => rw [ht] at hm; exact absurd hm (by simp)
      | some s1 =>
        rw [ht] at hm
        exact ih s1 hm (tick_some_wellFormed w h events s s1 ht hs)
    · rw [← Option.some.inj hm]
      exact hs

theorem startup_wellFormed (mem c0 : Cells) (h0 : startup mem = some c0) :
    wellFormed numCellsInRow numCellsInColumn c0 := by
  obtain ⟨c, hc, hcs⟩ := startup_spec mem
  rw [hc] at h0
  rw [← Option.some.inj h0]
  intro i j hij
  rw [hcs i j hij]
  refine ⟨rfl, ?_⟩
  show (if (i, j) ∈ startupLive then (1 : Int) else 0) = 0 ∨
    (if (i, j) ∈ startupLive then (1 : Int) else 0) = 1
  split_ifs
  · exact Or.inr rfl
  · exact Or.inl rfl

/-- Two click toggles of a cell whose status is 0 or 1 give back the contents. -/
theorem toggleCell_twice (w h : Int) (cells : Cells) (x y : Int) (hxy : inGrid w h x y)
    (hst : (cells (offset h x y)).status = 0 ∨ (cells (offset h x y)).status = 1) :
    ∃ c1 c2, toggleCell w h cells x y = some c1 ∧ toggleCell w h c1 x y = some c2 ∧
      (c2 (offset h x y)).status = (cells (offset h x y)).status ∧
      ∀ k, c2 k = cells k := by
  have key : ∀ k, setStatus (setStatus cells (offset h x y)
        (if (cells (offset h x y)).status = 0 then 1 else 0)) (offset h x y)
        (if ((setStatus cells (offset h x y)
          (if (cells (offset h x y)).status = 0 then 1 else 0)) (offset h x y)).status = 0
          then 1 else 0) k = cells k := by
    intro k
    simp only [setStatus_apply, if_true]
    by_cases hk : k = offset h x y
    · subst hk
      rcases hst with h0 | h1
      · simp [h0]
        rw [← h0]
      · simp [h1]
        rw [← h1]
    · simp [hk]
  exact ⟨_, _, toggleCell_inGrid w h cells x y hxy, toggleCell_inGrid w h _ x y hxy,
    congrArg Cell.status (key _), key⟩

/-! ## The rule and the neighbour count -/

/-- C1: on a grid of width and height at least 1 whose cells all have status
0 or 1 and next_status 0, an unpaused tick without events returns, and leaves
each cell (i,j) with status 1 exactly when the Conway rule holds of the
pre-tick status and the pre-tick count of live neighbours (counted as the
specification counts them), and with status 0 otherwise; the new status is a
function of the pre-tick grid alone. -/
theorem tick_applies_conway_rule (w h : Int) (_hw : 1 ≤ w) (_hh : 1 ≤ h) (s : State)
    (hp : s.paused = false) (hgrid : wellFormed w h s.cells) :
    ∃ s', tick w h s [] = some s' ∧
      ∀ i j, inGrid w h i j →
        (s'.cells (offset h i j)).status =
          if ((s.cells (offset h i j)).status = 1 ∧
                ((bruteForceCount w h s.cells i j : Int) = 2 ∨
                 (bruteForceCount w h s.cells i j : Int) = 3)) ∨
             ((s.cells (offset h i j)).status = 0 ∧
                (bruteForceCount w h s.cells i j : Int) = 3)
          then 1 else 0 := by
  refine ⟨_, tick_nil w h s, fun i j hij => ?_⟩
  simp only [hp, Bool.not_false, if_true]
  rw [(generation_spec w h s.cells).1 i j hij, (hgrid i j hij).1,
    nextValue_conway _ _ (hgrid i j hij).2, countNeighbors_eq_sum w h s.cells i j hij,
    bruteForceCount_eq_sum w h s.cells i j hij]

/-- Witness for C1: a 3 by 3 grid with three live cells in its middle row. -/
theorem tick_applies_conway_rule_witness :
    ((1 : Int) ≤ 3 ∧ wellFormed 3 3 (gridOf 3 [(0, 1), (1, 1), (2, 1)])) ∧
    ∃ s', tick 3 3 { cells := gridOf 3 [(0, 1), (1, 1), (2, 1)],
                     paused := false, windowOpen := true } [] = some s' ∧
      ∀ i j, inGrid 3 3 i j →
        (s'.cells (offset 3 i j)).status =
          if ((gridOf 3 [(0, 1), (1, 1), (2, 1)] (offset 3 i j)).status = 1 ∧
                ((bruteForceCount 3 3 (gridOf 3 [(0, 1), (1, 1), (2, 1)]) i j : Int) = 2 ∨
                 (bruteForceCount 3 3 (gridOf 3 [(0, 1), (1, 1), (2, 1)]) i j : Int) = 3)) ∨
             ((gridOf 3 [(0, 1), (1, 1), (2, 1)] (offset 3 i j)).status = 0 ∧
                (bruteForceCount 3 3 (gridOf 3 [(0, 1), (1, 1), (2, 1)]) i j : Int) = 3)
          then 1 else 0 :=
  ⟨⟨by decide, gridOf_wellFormed 3 3 _⟩,
   tick_applies_conway_rule 3 3 (by decide) (by decide)
     { cells := gridOf 3 [(0, 1), (1, 1), (2, 1)], paused := false, windowOpen := true }
     rfl (gridOf_wellFormed 3 3 _)⟩

/-- C2: for width and height at least 1 and a cell (i,j) of the grid, the
value of numLiveNeighbors after the neighbour loop (C's truncating remainder)
equals the number of Moore offsets whose cell, at coordinates reduced with the
mathematical modulo, has status 1; and every index the loop forms lies inside
the grid and equals that mathematical modulo. -/
theorem countNeighbors_eq_bruteForceCount (w h : Int) (_hw : 1 ≤ w) (_hh : 1 ≤ h)
    (cells : Cells) (i j : Int) (hi : 0 ≤ i ∧ i < w) (hj : 0 ≤ j ∧ j < h) :
    countNeighbors w h cells i j = (bruteForceCount w h cells i j : Int) ∧
    ∀ x ∈ neighborSteps, ∀ y ∈ neighborSteps,
      (0 ≤ Int.tmod (i + x + w) w ∧ Int.tmod (i + x + w) w < w ∧
       0 ≤ Int.tmod (j + y + h) h ∧ Int.tmod (j + y + h) h < h) ∧
      Int.tmod (i + x + w) w = (i + x) % w ∧ Int.tmod (j + y + h) h = (j + y) % h := by
  have hij : inGrid w h i j := ⟨hi.1, hi.2, hj.1, hj.2⟩
  refine ⟨?_, fun x hx y hy => ?_⟩
  · rw [countNeighbors_eq_sum w h cells i j hij, bruteForceCount_eq_sum w h cells i j hij]
  · have hx' : -1 ≤ x ∧ x ≤ 1 := by
      simp only [neighborSteps, List.mem_cons, List.mem_singleton, List.not_mem_nil, or_false] at hx
      omega
    have hy' : -1 ≤ y ∧ y ≤ 1 := by
      simp only [neighborSteps, List.mem_cons, List.mem_singleton, List.not_mem_nil, or_false] at hy
      omega
    rw [tmod_wrap w i x hi hx', tmod_wrap h j y hj hy']
    exact ⟨⟨Int.emod_nonneg _ (by omega), Int.emod_lt_of_pos _ (by omega),
      Int.emod_nonneg _ (by omega), Int.emod_lt_of_pos _ (by omega)⟩, rfl, rfl⟩

/-- Witness for C2: the corner cell (0,0) of a 3 by 2 grid of live cells. -/
theorem countNeighbors_eq_bruteForceCount_witness :
    ((1 : Int) ≤ 3 ∧ (1 : Int) ≤ 2 ∧ ((0 : Int) ≤ 0 ∧ (0 : Int) < 3) ∧ ((0 : Int) ≤ 0 ∧ (0 : Int) < 2)) ∧
    (countNeighbors 3 2 (fun _ => { status := 1, next_status := 0 }) 0 0 =
        (bruteForceCount 3 2 (fun _ => { status := 1, next_status := 0 }) 0 0 : Int) ∧
      ∀ x ∈ neighborSteps, ∀ y ∈ neighborSteps,
        (0 ≤ Int.tmod (0 + x + 3) 3 ∧ Int.tmod (0 + x + 3) 3 < 3 ∧
         0 ≤ Int.tmod (0 + y + 2) 2 ∧ Int.tmod (0 + y + 2) 2 < 2) ∧
        Int.tmod (0 + x + 3) 3 = (0 + x) % 3 ∧ Int.tmod (0 + y + 2) 2 = (0 + y) % 2) :=
  ⟨by decide,
   countNeighbors_eq_bruteForceCount 3 2 (by decide) (by decide)
     (fun _ => { status := 1, next_status := 0 }) 0 0 (by decide) (by decide)⟩

/-! ## Start-up -/

/-- C3 (what the code does): the grid is 75 by 40, and the start-up writes of
lines 71-74 use second indices 53 and 54, which are not below 40; the four
pairs (52,53), (52,54), (53,53), (53,54) are outside the grid.  In the storage
of the array these writes reach the cells (53,13), (53,14), (54,13), (54,14),
so after start-up the cells with status 1 are the five glider cells and those
four, not the nine listed index pairs. -/
theorem startup_block_indices_outside_grid :
    numCellsInRow = 75 ∧ numCellsInColumn = 40 ∧
    initialAlive.filter (fun p => decide (¬ inGrid numCellsInRow numCellsInColumn p.1 p.2))
      = [(52, 53), (52, 54), (53, 53), (53, 54)] ∧
    ∀ mem : Cells, ∃ c0, startup mem = some c0 ∧
      ∀ i j, inGrid numCellsInRow numCellsInColumn i j →
        c0 (offset numCellsInColumn i j) =
          { status := if (i, j) ∈ startupLive then 1 else 0, next_status := 0 } :=
  ⟨by decide, by decide, by decide, startup_spec⟩


/-! ## Known patterns -/

/-- C4: on every grid with width and height at least 20 whose live cells are
exactly (13,12), (11,13), (13,13), (12,14), (13,14), with every next_status 0,
four consecutive unpaused ticks without events return, and afterwards the live
cells are exactly the same shape shifted by (+1,+1), that is (14,13), (12,14),
(14,14), (13,15), (14,15); every other cell is dead. -/
theorem glider_translates_after_four_ticks (w h : Int) (hw : 20 ≤ w) (hh : 20 ≤ h)
    (s : State) (ho : s.windowOpen = true) (hp : s.paused = false)
    (hs : shows w h s.cells gliderStart) :
    gliderEnd = [(14, 13), (12, 14), (14, 14), (13, 15), (14, 15)] ∧
    ∃ s', mainLoop w h s [[], [], [], []] = some s' ∧ shows w h s'.cells gliderEnd := by
  refine ⟨by decide, ?_⟩
  obtain ⟨c, p, o⟩ := s
  simp only at ho hp hs
  subst ho hp
  rw [mainLoop_gen, mainLoop_gen, mainLoop_gen, mainLoop_gen]
  exact ⟨_, rfl, glider_four_generations w h hw hh c hs⟩

/-- Witness for C4: the glider on a 20 by 20 grid. -/
theorem glider_translates_after_four_ticks_witness :
    ((20 : Int) ≤ 20 ∧ shows 20 20 (gridOf 20 gliderStart) gliderStart) ∧
    (gliderEnd = [(14, 13), (12, 14), (14, 14), (13, 15), (14, 15)] ∧
     ∃ s', mainLoop 20 20
        { cells := gridOf 20 gliderStart, paused := false, windowOpen := true }
        [[], [], [], []] = some s' ∧ shows 20 20 s'.cells gliderEnd) :=
  ⟨⟨by decide, gridOf_shows 20 20 gliderStart (by decide)⟩,
   glider_translates_after_four_ticks 20 20 (by decide) (by decide)
     { cells := gridOf 20 gliderStart, paused := false, windowOpen := true } rfl rfl
     (gridOf_shows 20 20 gliderStart (by decide))⟩

/-- C5: on every grid with width and height at least 5 and for every centre
(x,y) of the grid, if the live cells are exactly the horizontal row
((x-1) mod w, y), (x,y), ((x+1) mod w, y), with every next_status 0, then after
one unpaused tick the live cells are exactly the vertical column
(x, (y-1) mod h), (x,y), (x, (y+1) mod h), and after a second unpaused tick
they are exactly the original row again. -/
theorem blinker_flips_and_returns (w h : Int) (hw : 5 ≤ w) (hh : 5 ≤ h) (x y : Int)
    (hxy : inGrid w h x y) (s : State) (ho : s.windowOpen = true) (hp : s.paused = false)
    (hs : shows w h s.cells (blinkerRow w x y)) :
    ∃ s1 s2, mainLoop w h s [[]] = some s1 ∧ shows w h s1.cells (blinkerColumn h x y) ∧
      mainLoop w h s [[], []] = some s2 ∧ shows w h s2.cells (blinkerRow w x y) := by
  obtain ⟨c, p, o⟩ := s
  simp only at ho hp hs
  subst ho hp
  have h1 := blinker_row_to_column w h hw hh x y hxy c hs
  have h2 := blinker_column_to_row w h hw hh x y hxy _ h1
  rw [mainLoop_gen, mainLoop_gen, mainLoop_gen]
  exact ⟨_, _, rfl, h1, rfl, h2⟩

/-- Witness for C5: a blinker centred at the corner (0,0) of a 5 by 5 grid,
so that the row and the column both wrap. -/
theorem blinker_flips_and_returns_witness :
    ((5 : Int) ≤ 5 ∧ inGrid 5 5 0 0 ∧ shows 5 5 (gridOf 5 (blinkerRow 5 0 0)) (blinkerRow 5 0 0)) ∧
    ∃ s1 s2, mainLoop 5 5
        { cells := gridOf 5 (blinkerRow 5 0 0), paused := false, windowOpen := true } [[]]
          = some s1 ∧
      shows 5 5 s1.cells (blinkerColumn 5 0 0) ∧
      mainLoop 5 5
        { cells := gridOf 5 (blinkerRow 5 0 0), paused := false, windowOpen := true } [[], []]
          = some s2 ∧
      shows 5 5 s2.cells (blinkerRow 5 0 0) :=
  ⟨⟨by decide, by decide, gridOf_shows 5 5 (blinkerRow 5 0 0) (by decide)⟩,
   blinker_flips_and_returns 5 5 (by decide) (by decide) 0 0 (by decide)
     { cells := gridOf 5 (blinkerRow 5 0 0), paused := false, windowOpen := true } rfl rfl
     (gridOf_shows 5 5 (blinkerRow 5 0 0) (by decide))⟩

/-- C6 (counterexample): on a grid of width 2 and height 4 whose live cells
are exactly the block (0,1), (1,1), (0,2), (1,2), one unpaused tick leaves cell
(0,1) dead: through the wrap-around it counts five live neighbours. -/
theorem block_on_width_two_dies :
    shows 2 4 (gridOf 4 (block 0 1)) (block 0 1) ∧
    countNeighbors 2 4 (gridOf 4 (block 0 1)) 0 1 = 5 ∧
    ∃ s', mainLoop 2 4
        { cells := gridOf 4 (block 0 1), paused := false, windowOpen := true } [[]] = some s' ∧
      (s'.cells (offset 4 0 1)).status = 0 ∧
      ((gridOf 4 (block 0 1)) (offset 4 0 1)).status = 1 := by
  have hc : countNeighbors 2 4 (gridOf 4 (block 0 1)) 0 1 = 5 := by decide
  refine ⟨gridOf_shows 2 4 (block 0 1) (by decide), hc, ?_⟩
  rw [mainLoop_gen]
  refine ⟨_, rfl, ?_, by decide⟩
  show (commitPass 2 4 false (computePass 2 4 (gridOf 4 (block 0 1))) (offset 4 0 1)).status = 0
  rw [(generation_spec 2 4 (gridOf 4 (block 0 1))).1 0 1 (by decide), hc]
  decide

/-- C6 (amended): on every grid with width and height at least 3 whose live
cells are exactly a 2 by 2 block (x,y), (x+1,y), (x,y+1), (x+1,y+1) inside the
grid, with every next_status 0, any number n of unpaused ticks without events
returns and leaves every cell with its initial status and next_status. -/
theorem block_is_still_life (w h : Int) (hw : 3 ≤ w) (hh : 3 ≤ h) (x y : Int)
    (hx : 0 ≤ x ∧ x + 1 < w) (hy : 0 ≤ y ∧ y + 1 < h)
    (s : State) (ho : s.windowOpen = true) (hp : s.paused = false)
    (hs : shows w h s.cells (block x y)) (n : Nat) :
    ∃ s', mainLoop w h s (List.replicate n []) = some s' ∧
      ∀ i j, inGrid w h i j → s'.cells (offset h i j) = s.cells (offset h i j) := by
  obtain ⟨s', hs', hsh⟩ := mainLoop_still w h (block x y)
    (fun c hc => block_still w h hw hh x y hx hy c hc) n s ho hp hs
  exact ⟨s', hs', fun i j hij => by rw [hsh i j hij, hs i j hij]⟩

/-- Witness for C6 (amended): the block in the corner of a 3 by 3 grid, three
ticks. -/
theorem block_is_still_life_witness :
    ((3 : Int) ≤ 3 ∧ ((0 : Int) ≤ 0 ∧ (0 : Int) + 1 < 3) ∧
      shows 3 3 (gridOf 3 (block 0 0)) (block 0 0)) ∧
    ∃ s', mainLoop 3 3
        { cells := gridOf 3 (block 0 0), paused := false, windowOpen := true }
        (List.replicate 3 []) = some s' ∧
      ∀ i j, inGrid 3 3 i j → s'.cells (offset 3 i j) = (gridOf 3 (block 0 0)) (offset 3 i j) :=
  ⟨⟨by decide, by decide, gridOf_shows 3 3 (block 0 0) (by decide)⟩,
   block_is_still_life 3 3 (by decide) (by decide) 0 0 (by decide) (by decide)
     { cells := gridOf 3 (block 0 0), paused := false, windowOpen := true } rfl rfl
     (gridOf_shows 3 3 (block 0 0) (by decide)) 3⟩

/-! ## Click toggles -/

/-- C7 (counterexample): on the 75 by 40 grid with every cell dead, a click at
pixel (0, 800) gives cellClickedY = 40 = height; the handler does not fail, and
afterwards cell (1,0) has status 1. -/
theorem click_one_past_last_row_modifies_a_cell :
    Int.tdiv 0 BLOCK_WIDTH = 0 ∧ Int.tdiv 800 BLOCK_HEIGHT = numCellsInColumn ∧
    ∃ s', handleEvent numCellsInRow numCellsInColumn
        { cells := fun _ => { status := 0, next_status := 0 }, paused := true,
          windowOpen := true }
        (Event.mouseButtonPressed 0 800) = some s' ∧
      (s'.cells (offset numCellsInColumn 1 0)).status = 1 := by
  refine ⟨by decide, by decide, ?_⟩
  have hin : inArray numCellsInRow numCellsInColumn
      (offset numCellsInColumn (Int.tdiv 0 BLOCK_WIDTH) (Int.tdiv 800 BLOCK_HEIGHT)) := by decide
  simp only [handleEvent, toggleCell, if_pos hin]
  refine ⟨_, rfl, ?_⟩
  simp only [if_true, setStatus_apply]
  rw [if_pos (by decide)]

/-- C7 (amended): the click toggle has no range check of its own; at every
coordinate of the grid, in particular at (width-1, height-1), it succeeds,
flips the status of that cell (0 becomes 1, anything else becomes 0) and
changes no other cell and no next_status. -/
theorem toggleCell_in_range_succeeds (w h : Int) (cells : Cells) (x y : Int)
    (hxy : inGrid w h x y) :
    inGrid w h (w - 1) (h - 1) ∧
    (∃ c', toggleCell w h cells (w - 1) (h - 1) = some c') ∧
    ∃ c', toggleCell w h cells x y = some c' ∧
      (c' (offset h x y)).status = (if (cells (offset h x y)).status = 0 then 1 else 0) ∧
      (c' (offset h x y)).next_status = (cells (offset h x y)).next_status ∧
      ∀ k, k ≠ offset h x y → c' k = cells k := by
  have hc : inGrid w h (w - 1) (h - 1) := by
    unfold inGrid at hxy ⊢
    omega
  refine ⟨hc, ⟨_, toggleCell_inGrid w h cells _ _ hc⟩, _, toggleCell_inGrid w h cells x y hxy,
    ?_, ?_, ?_⟩
  · simp [setStatus_apply]
  · simp [setStatus_apply]
  · intro k hk
    simp [setStatus_apply, hk]

/-- Witness for C7 (amended): the last cell of a 2 by 2 grid. -/
theorem toggleCell_in_range_succeeds_witness :
    inGrid 2 2 1 1 ∧
    (inGrid 2 2 (2 - 1) (2 - 1) ∧
     (∃ c', toggleCell 2 2 (fun _ => { status := 0, next_status := 0 }) (2 - 1) (2 - 1) = some c') ∧
     ∃ c', toggleCell 2 2 (fun _ => { status := 0, next_status := 0 }) 1 1 = some c' ∧
      (c' (offset 2 1 1)).status =
        (if ((fun _ => { status := 0, next_status := 0 } : Cells) (offset 2 1 1)).status = 0
          then 1 else 0) ∧
      (c' (offset 2 1 1)).next_status =
        ((fun _ => { status := 0, next_status := 0 } : Cells) (offset 2 1 1)).next_status ∧
      ∀ k, k ≠ offset 2 1 1 → c' k = (fun _ => { status := 0, next_status := 0 } : Cells) k) :=
  ⟨by decide,
   toggleCell_in_range_succeeds 2 2 (fun _ => { status := 0, next_status := 0 }) 1 1 (by decide)⟩

/-- C8: for every grid and every in-range coordinate (x,y), two click toggles
at (x,y) in succession both succeed and give back the original contents: the
status of (x,y) returns to its original value, and every other status and
every next_status is unchanged.  A grid cell is Alive or Dead, status 1 or 0;
the second part states the same, with no condition on the status, for every
state that the main loop reaches from start-up on any schedule of events. -/
theorem toggle_twice_restores :
    (∀ (w h : Int) (cells : Cells) (x y : Int), inGrid w h x y →
      ((cells (offset h x y)).status = 0 ∨ (cells (offset h x y)).status = 1) →
      ∃ c1 c2, toggleCell w h cells x y = some c1 ∧ toggleCell w h c1 x y = some c2 ∧
        (c2 (offset h x y)).status = (cells (offset h x y)).status ∧
        ∀ k, c2 k = cells k) ∧
    (∀ (mem c0 : Cells) (schedule : List (List Event)) (s : State) (x y : Int),
      startup mem = some c0 →
      mainLoop numCellsInRow numCellsInColumn
        { cells := c0, paused := false, windowOpen := true } schedule = some s →
      inGrid numCellsInRow numCellsInColumn x y →
      ∃ c1 c2, toggleCell numCellsInRow numCellsInColumn s.cells x y = some c1 ∧
        toggleCell numCellsInRow numCellsInColumn c1 x y = some c2 ∧
        (c2 (offset numCellsInColumn x y)).status =
          (s.cells (offset numCellsInColumn x y)).status ∧
        ∀ k, c2 k = s.cells k) := by
  refine ⟨fun w h cells x y hxy hst => toggleCell_twice w h cells x y hxy hst,
    fun mem c0 schedule s x y h0 hm hxy => ?_⟩
  have hw := mainLoop_some_wellFormed _ _ schedule _ s hm (startup_wellFormed mem c0 h0)
  exact toggleCell_twice _ _ s.cells x y hxy (hw x y hxy).2

/-- Witness for C8: the live cell (1,0) of a 2 by 2 grid, and the glider cell
(13,12) of the grid right after start-up. -/
theorem toggle_twice_restores_witness :
    ((inGrid 2 2 1 0 ∧
      (((fun _ => { status := 1, next_status := 0 } : Cells) (offset 2 1 0)).status = 0 ∨
       ((fun _ => { status := 1, next_status := 0 } : Cells) (offset 2 1 0)).status = 1)) ∧
     ∃ c1 c2, toggleCell 2 2 (fun _ => { status := 1, next_status := 0 }) 1 0 = some c1 ∧
      toggleCell 2 2 c1 1 0 = some c2 ∧
      (c2 (offset 2 1 0)).status =
        ((fun _ => { status := 1, next_status := 0 } : Cells) (offset 2 1 0)).status ∧
      ∀ k, c2 k = (fun _ => { status := 1, next_status := 0 } : Cells) k) ∧
    ∃ c0, startup (fun _ => { status := 7, next_status := 7 }) = some c0 ∧
      inGrid numCellsInRow numCellsInColumn 13 12 ∧
      ∃ c1 c2, toggleCell numCellsInRow numCellsInColumn c0 13 12 = some c1 ∧
        toggleCell numCellsInRow numCellsInColumn c1 13 12 = some c2 ∧
        (c2 (offset numCellsInColumn 13 12)).status =
          (c0 (offset numCellsInColumn 13 12)).status ∧
        ∀ k, c2 k = c0 k :=
  ⟨⟨⟨by decide, Or.inr rfl⟩,
    toggle_twice_restores.1 2 2 (fun _ => { status := 1, next_status := 0 }) 1 0 (by decide)
      (Or.inr rfl)⟩,
   (startup_spec (fun _ => { status := 7, next_status := 7 })).elim
     (fun c0 hc0 => ⟨c0, hc0.1, by decide,
       toggle_twice_restores.2 (fun _ => { status := 7, next_status := 7 }) c0 []
         { cells := c0, paused := false, windowOpen := true } 13 12 hc0.1 rfl (by decide)⟩)⟩

/-! ## Pausing and the loop invariant -/

/-- C9: when the events of a tick contain no mouse click, polling them
succeeds and leaves the cells alone; if the pause flag that the two guards
then read is set, the tick returns with every status and next_status
unchanged; if it is clear, the tick returns with exactly one generation
applied: each grid cell gets the rule value computed from the pre-tick
contents and a cleared next_status, and nothing outside the grid changes. -/
theorem tick_paused_frame_unpaused_step (w h : Int) (s : State) (events : List Event)
    (hnc : ∀ e ∈ events, isClick e = false) :
    ∃ s1 s', pollEvents w h s events = some s1 ∧ s1.cells = s.cells ∧
      tick w h s events = some s' ∧ s'.paused = s1.paused ∧
      (s1.paused = true → s'.cells = s.cells) ∧
      (s1.paused = false →
        s'.cells = commitPass w h false (computePass w h s.cells) ∧
        (∀ i j, inGrid w h i j →
          s'.cells (offset h i j) =
            { status := nextValue (s.cells (offset h i j)).status
                (countNeighbors w h s.cells i j) (s.cells (offset h i j)).next_status,
              next_status := 0 }) ∧
        (∀ k, (∀ i j, inGrid w h i j → offset h i j ≠ k) → s'.cells k = s.cells k)) := by
  obtain ⟨s1, hp, hc⟩ := pollEvents_noClick w h events s hnc
  refine ⟨s1, _, hp, hc, tick_of_poll w h s s1 events hp, rfl, ?_, ?_⟩
  · intro hpa
    have e : commitPass w h s1.paused
        (if !s1.paused then computePass w h s1.cells else s1.cells) = s.cells := by
      rw [hpa, hc]; exact tick_cells_paused w h s.cells
    exact e
  · intro hpa
    have e : commitPass w h s1.paused
        (if !s1.paused then computePass w h s1.cells else s1.cells) =
        commitPass w h false (computePass w h s.cells) := by
      rw [hpa, hc]; rfl
    exact ⟨e, fun i j hij => (congrFun e _).trans ((generation_spec w h s.cells).1 i j hij),
      fun k hk => (congrFun e k).trans ((generation_spec w h s.cells).2 k hk)⟩

/-- Witness for C9: a paused tick on a 2 by 2 grid whose only event is a key
press other than Space. -/
theorem tick_paused_frame_unpaused_step_witness :
    (∀ e ∈ [Event.keyPressed false], isClick e = false) ∧
    ∃ s1 s', pollEvents 2 2 { cells := fun _ => { status := 1, next_status := 0 },
                              paused := true, windowOpen := true }
        [Event.keyPressed false] = some s1 ∧
      s1.cells = (fun _ => { status := 1, next_status := 0 }) ∧
      tick 2 2 { cells := fun _ => { status := 1, next_status := 0 },
                 paused := true, windowOpen := true } [Event.keyPressed false] = some s' ∧
      s'.paused = s1.paused ∧
      (s1.paused = true → s'.cells = (fun _ => { status := 1, next_status := 0 })) ∧
      (s1.paused = false →
        s'.cells = commitPass 2 2 false
          (computePass 2 2 (fun _ => { status := 1, next_status := 0 })) ∧
        (∀ i j, inGrid 2 2 i j →
          s'.cells (offset 2 i j) =
            { status := nextValue ((fun _ => { status := 1, next_status := 0 } : Cells)
                  (offset 2 i j)).status
                (countNeighbors 2 2 (fun _ => { status := 1, next_status := 0 }) i j)
                ((fun _ => { status := 1, next_status := 0 } : Cells) (offset 2 i j)).next_status,
              next_status := 0 }) ∧
        (∀ k, (∀ i j, inGrid 2 2 i j → offset 2 i j ≠ k) →
          s'.cells k = (fun _ => { status := 1, next_status := 0 } : Cells) k)) :=
  ⟨by decide,
   tick_paused_frame_unpaused_step 2 2
     { cells := fun _ => { status := 1, next_status := 0 }, paused := true, windowOpen := true }
     [Event.keyPressed false] (by decide)⟩

/-- C10: the initialisation loop leaves every grid cell with next_status 0 and
status 0, and after the start-up writes every grid cell has next_status 0 and
status 0 or 1; a tick whose click events all fall inside the grid (with any number of
pause toggles) returns and keeps that property, both when the compute pass
starts and when the tick ends; in an unpaused tick a cell that is dead with a
neighbour count other than 3 at that point, matched by none of the four rule
branches, is dead after the commit. -/
theorem wellFormed_startup_and_tick :
    (∀ (w h : Int) (mem : Cells), wellFormed w h (initLoop w h mem)) ∧
    (∀ mem : Cells, ∃ c0, startup mem = some c0 ∧
      wellFormed numCellsInRow numCellsInColumn c0) ∧
    ∀ (w h : Int) (s : State) (events : List Event),
      wellFormed w h s.cells → (∀ e ∈ events, ¬ clickOutside w h e) →
      ∃ s1 s', pollEvents w h s events = some s1 ∧ wellFormed w h s1.cells ∧
        tick w h s events = some s' ∧ wellFormed w h s'.cells ∧
        (s1.paused = false → ∀ i j, inGrid w h i j →
          (s1.cells (offset h i j)).status = 0 → countNeighbors w h s1.cells i j ≠ 3 →
          (s'.cells (offset h i j)).status = 0) := by
  refine ⟨fun w h mem i j hij => ?_, ?_, ?_⟩
  · rw [initLoop_spec w h mem i j hij]
    exact ⟨rfl, Or.inl rfl⟩
  · intro mem
    obtain ⟨c0, h0, hc0⟩ := startup_spec mem
    refine ⟨c0, h0, fun i j hij => ?_⟩
    rw [hc0 i j hij]
    refine ⟨rfl, ?_⟩
    show (if (i, j) ∈ startupLive then (1 : Int) else 0) = 0 ∨
      (if (i, j) ∈ startupLive then (1 : Int) else 0) = 1
    split_ifs
    · exact Or.inr rfl
    · exact Or.inl rfl
  · intro w h s events hs hev
    obtain ⟨s1, hp, hw1⟩ := pollEvents_wellFormed w h events s hev hs
    refine ⟨s1, _, hp, hw1, tick_of_poll w h s s1 events hp, ?_, ?_⟩
    · cases hpa : s1.paused
      · simp only [Bool.not_false, if_true]
        exact generation_wellFormed w h s1.cells hw1
      · simp only [tick_cells_paused]
        exact hw1
    · intro hpa i j hij hst hn
      simp only [hpa, Bool.not_false, if_true]
      rw [(generation_spec w h s1.cells).1 i j hij, (hw1 i j hij).1, hst]
      show nextValue 0 (countNeighbors w h s1.cells i j) 0 = 0
      unfold nextValue
      split_ifs <;> omega

/-- Witness for C10: a 2 by 2 grid with one live cell, a Space press and a
click on cell (1,1). -/
theorem wellFormed_startup_and_tick_witness :
    (wellFormed 2 2 (fun k => { status := if k = 0 then 1 else 0, next_status := 0 }) ∧
      ∀ e ∈ [Event.keyPressed true, Event.mouseButtonPressed 25 39], ¬ clickOutside 2 2 e) ∧
    ∃ s1 s', pollEvents 2 2
        { cells := fun k => { status := if k = 0 then 1 else 0, next_status := 0 },
          paused := true, windowOpen := true }
        [Event.keyPressed true, Event.mouseButtonPressed 25 39] = some s1 ∧
      wellFormed 2 2 s1.cells ∧
      tick 2 2
        { cells := fun k => { status := if k = 0 then 1 else 0, next_status := 0 },
          paused := true, windowOpen := true }
        [Event.keyPressed true, Event.mouseButtonPressed 25 39] = some s' ∧
      wellFormed 2 2 s'.cells ∧
      (s1.paused = false → ∀ i j, inGrid 2 2 i j →
        (s1.cells (offset 2 i j)).status = 0 → countNeighbors 2 2 s1.cells i j ≠ 3 →
        (s'.cells (offset 2 i j)).status = 0) :=
  have hw : wellFormed 2 2 (fun k => { status := if k = 0 then 1 else 0, next_status := 0 }) :=
    fun i j _ => ⟨rfl, by
      show (if offset 2 i j = 0 then (1 : Int) else 0) = 0 ∨
        (if offset 2 i j = 0 then (1 : Int) else 0) = 1
      split_ifs
      · exact Or.inr rfl
      · exact Or.inl rfl⟩
  have he : ∀ e ∈ [Event.keyPressed true, Event.mouseButtonPressed 25 39],
      ¬ clickOutside 2 2 e := by
    intro e he
    simp only [List.mem_cons, List.mem_singleton, List.not_mem_nil, or_false] at he
    rcases he with rfl | rfl
    · exact fun hf => hf
    · intro hf
      exact hf (by decide)
  ⟨⟨hw, he⟩,
   wellFormed_startup_and_tick.2.2 2 2
     { cells := fun k => { status := if k = 0 then 1 else 0, next_status := 0 },
       paused := true, windowOpen := true }
     [Event.keyPressed true, Event.mouseButtonPressed 25 39] hw he⟩

end GameOfLife
